import Mathlib

/-!
Verification of the box-pruning engine (`IceBoxPruning.cpp`) against its
specification.

The development shallowly embeds the source file's data model and algorithms:

* Floats.  The program never does arithmetic on box coordinates; it only
  compares them (the single addition `f + 0.0f` inside `MungeFloat` is modelled
  separately at the bit level).  For non-NaN IEEE-754 binary32 values, `≤` is a
  total preorder whose quotient embeds in a linear order, so box coordinates
  are modelled as integers: a float is represented by its signed-magnitude
  rank `floatKey` (sign-magnitude reading of the 32-bit pattern), under which
  float comparison coincides with integer comparison.  In this rank scale
  `FLT_MAX` is `2139095039 = 0x7f7fffff` and `+∞` is `2139095040 = 0x7f800000`.
* `MungeFloat` is modelled exactly, on 32-bit patterns as `Nat`, with
  two's-complement arithmetic written out (`% 2^32` world).
* The SoA arena, the pair output buffer and the prune kernel loops are
  modelled as pure functions; loops use explicit fuel, always called with a
  fuel value proved sufficient under the stated hypotheses (fuel exhaustion
  simply stops the loop, mirroring no real behaviour, and is never reached in
  any theorem below).
* The radix sorter is an external collaborator (spec §4.B); its output `Remap`
  enters as a parameter constrained by the sorter contract (a permutation of
  `0..N` that sorts the key list).
-/

/-! ### Generic bit lemmas used by the `MungeFloat` analysis -/

theorem xorDivTwo (x y : Nat) : (x ^^^ y) / 2 = (x / 2) ^^^ (y / 2) := by
  apply Nat.eq_of_testBit_eq
  intro i
  simp [Nat.testBit_div_two, Nat.testBit_xor]

theorem xorModTwo (x y : Nat) : (x ^^^ y) % 2 = (x % 2 + y % 2) % 2 := by
  have h := Nat.testBit_xor x y 0
  simp only [Nat.testBit_zero] at h
  rcases Nat.mod_two_eq_zero_or_one x with hx | hx <;>
  rcases Nat.mod_two_eq_zero_or_one y with hy | hy <;>
  simp [hx, hy] at h ⊢ <;> omega

theorem xorAllOnes : ∀ (n : Nat), ∀ m < 2 ^ n, m ^^^ (2 ^ n - 1) = 2 ^ n - 1 - m := by
  intro n
  induction n with
  | zero => intro m hm; interval_cases m; rfl
  | succ n ih =>
    intro m hm
    have h2 : (2 : Nat) ^ (n + 1) = 2 * 2 ^ n := by ring
    have h2n : (1 : Nat) ≤ 2 ^ n := Nat.one_le_two_pow
    have hq : m / 2 < 2 ^ n := by omega
    have key := ih (m / 2) hq
    have hdiv : (m ^^^ (2 ^ (n + 1) - 1)) / 2 = (m / 2) ^^^ (2 ^ n - 1) := by
      rw [xorDivTwo]; congr 1; omega
    have hmod : (m ^^^ (2 ^ (n + 1) - 1)) % 2 = (m % 2 + (2 ^ (n + 1) - 1) % 2) % 2 :=
      xorModTwo _ _
    have hone : (2 ^ (n + 1) - 1) % 2 = 1 := by omega
    have hx := Nat.div_add_mod (m ^^^ (2 ^ (n + 1) - 1)) 2
    omega

theorem twoPowAddXor :
    ∀ (n : Nat), ∀ m < 2 ^ n, (2 ^ n + m) ^^^ (2 ^ n - 1) = 2 ^ n + (m ^^^ (2 ^ n - 1)) := by
  intro n
  induction n with
  | zero => intro m hm; interval_cases m; rfl
  | succ n ih =>
    intro m hm
    have h2 : (2 : Nat) ^ (n + 1) = 2 * 2 ^ n := by ring
    have h2n : (1 : Nat) ≤ 2 ^ n := Nat.one_le_two_pow
    have hq : m / 2 < 2 ^ n := by omega
    have key := ih (m / 2) hq
    have hdiv : ((2 ^ (n + 1) + m) ^^^ (2 ^ (n + 1) - 1)) / 2 = (2 ^ n + m / 2) ^^^ (2 ^ n - 1) := by
      rw [xorDivTwo]; congr 1 <;> omega
    have hdiv2 : (m ^^^ (2 ^ (n + 1) - 1)) / 2 = (m / 2) ^^^ (2 ^ n - 1) := by
      rw [xorDivTwo]; congr 1; omega
    have hmod : ((2 ^ (n + 1) + m) ^^^ (2 ^ (n + 1) - 1)) % 2
        = ((2 ^ (n + 1) + m) % 2 + (2 ^ (n + 1) - 1) % 2) % 2 := xorModTwo _ _
    have hmod2 : (m ^^^ (2 ^ (n + 1) - 1)) % 2 = (m % 2 + (2 ^ (n + 1) - 1) % 2) % 2 :=
      xorModTwo _ _
    have hone : (2 ^ (n + 1) - 1) % 2 = 1 := by omega
    have hadd : (2 ^ (n + 1) + m) % 2 = m % 2 := by omega
    have hx := Nat.div_add_mod ((2 ^ (n + 1) + m) ^^^ (2 ^ (n + 1) - 1)) 2
    have hy := Nat.div_add_mod (m ^^^ (2 ^ (n + 1) - 1)) 2
    omega

/-! ### The float key encoder (`MungeFloat`, lines 145-159)

A 32-bit float is represented by its bit pattern, a `Nat` below `2^32`.
`addPosZero` models the source's `u.f = f + g_global_this_always_zero`: for a
non-NaN input, IEEE-754 addition of `+0.0` (round-to-nearest) maps `-0.0`
(pattern `0x80000000`) to `+0.0` and is the identity on every other value.
`sar31` is the arithmetic right shift by 31 of the two's-complement pattern
(`u.s >> 31` on a signed 32-bit integer). -/

def addPosZero (bits : Nat) : Nat :=
  if bits = 2147483648 then 0 else bits

def sar31 (bits : Nat) : Nat :=
  if bits < 2147483648 then 0 else 4294967295

/-- `MungeFloat` (source lines 153-159), on the 32-bit pattern:
`toggle = (u.s >> 31) & ~(1u << 31); return u.s ^ toggle`. -/
def MungeFloat (bits : Nat) : Nat :=
  let u := addPosZero bits
  let toggle := sar31 u &&& 2147483647
  u ^^^ toggle

/-- Two's-complement (signed int32) reading of a 32-bit pattern.  The prune
kernel compares munged values with signed integer compares (`jg`,
`pcmpgtd`, `_mm_cmpgt_epi32`). -/
def sint32 (x : Nat) : Int :=
  if x < 2147483648 then (x : Int) else (x : Int) - 4294967296

/-- Value rank of a 32-bit float pattern: sign-magnitude reading.  For non-NaN
floats, `a ≤ b` as floats iff `floatKey a ≤ floatKey b` (both `-0.0` and
`+0.0` have rank 0). -/
def floatKey (bits : Nat) : Int :=
  if bits < 2147483648 then (bits : Int) else -((bits : Int) - 2147483648)

/-- The pattern encodes a finite (hence non-NaN) float: its magnitude field is
strictly below the `0x7f800000` exponent-all-ones threshold. -/
def isFinite32 (bits : Nat) : Prop :=
  bits < 4294967296 ∧ bits % 2147483648 < 2139095040

theorem sint32_MungeFloat (bits : Nat) (h : bits < 4294967296) :
    sint32 (MungeFloat bits) = if bits ≤ 2147483648 then floatKey bits else floatKey bits - 1 := by
  by_cases hlt : bits < 2147483648
  · have h1 : MungeFloat bits = bits := by
      unfold MungeFloat addPosZero sar31
      have hne : bits ≠ 2147483648 := by omega
      simp [hne, hlt]
    rw [h1]
    unfold sint32 floatKey
    rw [if_pos hlt, if_pos hlt, if_pos (by omega : bits ≤ 2147483648)]
  · by_cases heq : bits = 2147483648
    · subst heq
      have h1 : MungeFloat 2147483648 = 0 := by decide
      rw [h1]
      simp [sint32, floatKey]
    · -- negative, nonzero: bits = 2^31 + m with 1 ≤ m < 2^31
      have hm1 : 2147483648 < bits := by omega
      set m : Nat := bits - 2147483648 with hmdef
      have hmlt : m < 2147483648 := by omega
      have hbits : bits = 2147483648 + m := by omega
      have h1 : MungeFloat bits = 4294967295 - m := by
        unfold MungeFloat addPosZero sar31
        have hne : ¬ bits = 2147483648 := heq
        have hge : ¬ bits < 2147483648 := hlt
        simp only [hne, if_false, hge]
        have htog : (4294967295 : Nat) &&& 2147483647 = 2147483647 := by decide
        rw [htog, hbits]
        have hpow : (2147483648 : Nat) = 2 ^ 31 := by norm_num
        have hpow2 : (2147483647 : Nat) = 2 ^ 31 - 1 := by norm_num
        have := twoPowAddXor 31 m (by omega)
        have h2 := xorAllOnes 31 m (by omega)
        rw [hpow, hpow2, this, h2]
        omega
      rw [h1]
      have hge : ¬ (4294967295 - m < 2147483648) := by omega
      have hb2 : ¬ (bits ≤ 2147483648) := by omega
      simp only [sint32, hge, if_false, floatKey, hb2,
        if_neg (by omega : ¬ bits < 2147483648)]
      have hcast : ((4294967295 - m : Nat) : Int) = 4294967295 - (m : Int) := by
        omega
      rw [hcast]
      omega

theorem floatKey_sign (bits : Nat) (h : bits < 4294967296) :
    (bits ≤ 2147483648 ↔ 0 ≤ floatKey bits) := by
  unfold floatKey
  split_ifs with h1
  · constructor <;> intro <;> omega
  · constructor <;> intro h2 <;> omega

/-- Claim C5, as stated (unsigned uint32 ordering), is false: the float
`-1.0` (pattern `0xbf800000`) is below `1.0` (pattern `0x3f800000`), yet its
`MungeFloat` image is larger in the unsigned (`Nat`) order. -/
theorem C5_unsigned_order_counterexample :
    isFinite32 3212836864 ∧ isFinite32 1065353216 ∧
    floatKey 3212836864 ≤ floatKey 1065353216 ∧
    ¬ MungeFloat 3212836864 ≤ MungeFloat 1065353216 := by
  refine ⟨by constructor <;> decide, by constructor <;> decide, by decide, by decide⟩

/-- Claim C5 (amended): for all non-NaN finite 32-bit floats `a` and `b`,
`encode(a) ≤ encode(b)` holds under the SIGNED two's-complement int32 ordering
of the encoder's result (the ordering the kernel actually uses) if and only if
`a ≤ b`; and `encode(-0.0) = encode(+0.0)`, `MungeFloat` being the encoder. -/
theorem C5_signed_order_iff (a b : Nat) (ha : isFinite32 a) (hb : isFinite32 b) :
    (sint32 (MungeFloat a) ≤ sint32 (MungeFloat b) ↔ floatKey a ≤ floatKey b) ∧
    MungeFloat 2147483648 = MungeFloat 0 := by
  obtain ⟨ha32, _⟩ := ha
  obtain ⟨hb32, _⟩ := hb
  constructor
  · rw [sint32_MungeFloat a ha32, sint32_MungeFloat b hb32]
    have hsa := floatKey_sign a ha32
    have hsb := floatKey_sign b hb32
    split_ifs with h1 h2 h3 <;> omega
  · decide

/-- Witness for `C5_signed_order_iff` at `a` = bits of `1.0`, `b` = bits of
`2.0`. -/
theorem C5_signed_order_iff_witness :
    (isFinite32 1065353216 ∧ isFinite32 1073741824) ∧
    ((sint32 (MungeFloat 1065353216) ≤ sint32 (MungeFloat 1073741824) ↔
        floatKey 1065353216 ≤ floatKey 1073741824) ∧
      MungeFloat 2147483648 = MungeFloat 0) :=
  ⟨⟨⟨by decide, by decide⟩, ⟨by decide, by decide⟩⟩,
    C5_signed_order_iff 1065353216 1073741824 ⟨by decide, by decide⟩ ⟨by decide, by decide⟩⟩

/-! ### Box model

Coordinates are integer float-ranks (see the header).  `fltMaxV` is the rank
of `FLT_MAX`, `infV` the rank of `+∞`; every non-NaN float has rank in
`[-infV, infV]`. -/

def fltMaxV : Int := 2139095039

def infV : Int := 2139095040

structure AABB where
  minx : Int
  miny : Int
  minz : Int
  maxx : Int
  maxy : Int
  maxz : Int
deriving DecidableEq

def AABB0 : AABB := ⟨0, 0, 0, 0, 0, 0⟩

/-- The caller-level inclusive 3-axis overlap predicate (spec §4.E):
two AABBs overlap iff for every axis `a.min ≤ b.max ∧ b.min ≤ a.max`. -/
def overlapB (a b : AABB) : Prop :=
  a.minx ≤ b.maxx ∧ b.minx ≤ a.maxx ∧
  a.miny ≤ b.maxy ∧ b.miny ≤ a.maxy ∧
  a.minz ≤ b.maxz ∧ b.minz ≤ a.maxz

instance (a b : AABB) : Decidable (overlapB a b) := by
  unfold overlapB; infer_instance

/-- `intersects2D` (source lines 20-26): the inclusive Y/Z test, written as the
negation of four strict comparisons. -/
def intersects2D (a b : AABB) : Bool :=
  if b.maxy < a.miny || a.maxy < b.miny || b.maxz < a.minz || a.maxz < b.minz then false
  else true

theorem intersects2D_iff (a b : AABB) :
    intersects2D a b = true ↔
      (a.miny ≤ b.maxy ∧ b.miny ≤ a.maxy ∧ a.minz ≤ b.maxz ∧ b.minz ≤ a.maxz) := by
  unfold intersects2D
  split_ifs with h <;> simp only [Bool.or_eq_true, decide_eq_true_eq] at h
  · simp only [Bool.false_eq_true, false_iff]
    intro hP
    rcases h with ((h | h) | h) | h <;> omega
  · simp only [true_iff]
    push_neg at h
    omega

/-! ### Sorter contract (spec §4.B)

The sorters are external.  `Remap` is constrained to be a permutation of
`0..N` (the `N+1` keys include the appended `FLT_MAX` sentinel) that sorts the
key list `PosList` (the boxes' `min.x`, then `FLT_MAX`). -/

def sortKey (l : List AABB) (k : Nat) : Int :=
  if k < l.length then (l.getD k AABB0).minx else fltMaxV

def sorterOK (l : List AABB) (R : Nat → Nat) : Prop :=
  (∀ i, i ≤ l.length → R i ≤ l.length) ∧
  (∀ i, i ≤ l.length → ∀ j, j ≤ l.length → R i = R j → i = j) ∧
  (∀ j, j ≤ l.length → ∀ i, i ≤ j → sortKey l (R i) ≤ sortKey l (R j))

/-- Validity of a box list for the bipartite pruner: `min ≤ max` per axis and
`min.x`, `max.x` strictly below the `FLT_MAX` sentinel (spec §3: user boxes
must not collide with the internal sentinels). -/
def boxesOK (l : List AABB) : Prop :=
  ∀ b ∈ l, b.minx ≤ b.maxx ∧ b.miny ≤ b.maxy ∧ b.minz ≤ b.maxz ∧
    b.minx < fltMaxV ∧ b.maxx < fltMaxV

instance (l : List AABB) (R : Nat → Nat) : Decidable (sorterOK l R) := by
  unfold sorterOK
  infer_instance

instance (l : List AABB) : Decidable (boxesOK l) := by
  unfold boxesOK
  infer_instance

/-! ### Bipartite box pruning (`Meshmerizer::BipartiteBoxPruning`, lines 40-133) -/

/-- The sorted working list built at lines 68-74: slot `i < N` holds
`list[Remap[i]]`, slot `N` has `mMin.x = FLT_MAX` (its other fields are never
read; uninitialized memory is modelled as zeros).  Positions beyond `N` are
outside the real allocation and are never read under the theorems'
hypotheses; the model extends them with the sentinel. -/
def sortedBoxes (l : List AABB) (R : Nat → Nat) (i : Nat) : AABB :=
  if i < l.length then l.getD (R i) AABB0
  else { AABB0 with minx := fltMaxV }

/-- `while(BoxList[r].mMin.x < MinLimit) r++` (line 88). -/
def runWhileLt (bl : Nat → AABB) (limit : Int) : Nat → Nat → Nat
  | 0, r => r
  | fuel + 1, r => if (bl r).minx < limit then runWhileLt bl limit fuel (r + 1) else r

/-- `while(BoxList[r].mMin.x <= MinLimit) r++` (line 113). -/
def runWhileLe (bl : Nat → AABB) (limit : Int) : Nat → Nat → Nat
  | 0, r => r
  | fuel + 1, r => if (bl r).minx ≤ limit then runWhileLe bl limit fuel (r + 1) else r

/-- Inner loop of the first sweep (lines 94-100): scan set-1 boxes while
`mMin.x ≤ MaxLimit`, emitting `(Remap0[Index0], Remap1[Index1])` on a 2D hit. -/
def bipInner1 (bl1 : Nat → AABB) (R1 : Nat → Nat) (box0 : AABB) (rid0 : Nat) :
    Nat → Nat → List (Nat × Nat) → List (Nat × Nat)
  | 0, _, acc => acc
  | fuel + 1, i1, acc =>
    if (bl1 i1).minx ≤ box0.maxx then
      bipInner1 bl1 R1 box0 rid0 fuel (i1 + 1)
        (if intersects2D box0 (bl1 i1) then acc ++ [(rid0, R1 i1)] else acc)
    else acc

/-- First sweep (lines 81-102). -/
def bipSweep1 (bl0 bl1 : Nat → AABB) (R0 R1 : Nat → Nat) (nb0 nb1 : Nat) :
    Nat → Nat → Nat → List (Nat × Nat) → List (Nat × Nat)
  | 0, _, _, acc => acc
  | fuel + 1, i0, r1, acc =>
    if r1 < nb1 ∧ i0 < nb0 then
      bipSweep1 bl0 bl1 R0 R1 nb0 nb1 fuel (i0 + 1)
        (runWhileLt bl1 (bl0 i0).minx (nb1 + 1) r1)
        (bipInner1 bl1 R1 (bl0 i0) (R0 i0) (nb1 + 1)
          (runWhileLt bl1 (bl0 i0).minx (nb1 + 1) r1) acc)
    else acc

/-- Inner loop of the second sweep (lines 119-125): scan set-0 boxes while
`mMin.x ≤ MaxLimit`, emitting `(Remap0[Index1], Remap1[Index0])` on a 2D hit. -/
def bipInner2 (bl0 : Nat → AABB) (R0 : Nat → Nat) (box1 : AABB) (rid1 : Nat) :
    Nat → Nat → List (Nat × Nat) → List (Nat × Nat)
  | 0, _, acc => acc
  | fuel + 1, i1, acc =>
    if (bl0 i1).minx ≤ box1.maxx then
      bipInner2 bl0 R0 box1 rid1 fuel (i1 + 1)
        (if intersects2D (bl0 i1) box1 then acc ++ [(R0 i1, rid1)] else acc)
    else acc

/-- Second sweep (lines 106-127). -/
def bipSweep2 (bl0 bl1 : Nat → AABB) (R0 R1 : Nat → Nat) (nb0 nb1 : Nat) :
    Nat → Nat → Nat → List (Nat × Nat) → List (Nat × Nat)
  | 0, _, _, acc => acc
  | fuel + 1, i0, r0, acc =>
    if r0 < nb0 ∧ i0 < nb1 then
      bipSweep2 bl0 bl1 R0 R1 nb0 nb1 fuel (i0 + 1)
        (runWhileLe bl0 (bl1 i0).minx (nb0 + 1) r0)
        (bipInner2 bl0 R0 (bl1 i0) (R1 i0) (nb0 + 1)
          (runWhileLe bl0 (bl1 i0).minx (nb0 + 1) r0) acc)
    else acc

/-- `Meshmerizer::BipartiteBoxPruning` (lines 40-133).  Returns `none` when
the source returns `false` (the `if(!nb0 || !list0 || !nb1 || !list1)`
checking at lines 43-44); otherwise the emitted pair list, each
`pairs.Add(x).Add(y)` statement modelled as one `(x, y)` entry. -/
def BipartiteBoxPruning (l0 l1 : List AABB) (R0 R1 : Nat → Nat) :
    Option (List (Nat × Nat)) :=
  if l0.length = 0 ∨ l1.length = 0 then none
  else
    some (bipSweep2 (sortedBoxes l0 R0) (sortedBoxes l1 R1) R0 R1 l0.length l1.length
      (l1.length + 1) 0 0
      (bipSweep1 (sortedBoxes l0 R0) (sortedBoxes l1 R1) R0 R1 l0.length l1.length
        (l0.length + 1) 0 0 []))

/-! ### Consequences of the sorter contract -/

theorem getD_mem_of_lt (l : List AABB) (n : Nat) (h : n < l.length) : l.getD n AABB0 ∈ l := by
  rw [List.getD_eq_getElem l AABB0 h]
  exact l.getElem_mem h

theorem boxesOK_minx (l : List AABB) (hb : boxesOK l) : ∀ b ∈ l, b.minx < fltMaxV :=
  fun b h => (hb b h).2.2.2.1

theorem sorter_last (l : List AABB) (R : Nat → Nat) (hs : sorterOK l R)
    (hm : ∀ b ∈ l, b.minx < fltMaxV) :
    R l.length = l.length := by
  obtain ⟨hrange, hinj, hsort⟩ := hs
  by_contra hne
  have hlt : R l.length < l.length := by
    have := hrange l.length (le_refl _)
    omega
  -- some p ≤ len must map to len; p ≠ len, so p < len, and sortedness is violated
  have hsurj : ∃ p, p ≤ l.length ∧ R p = l.length := by
    have hinj2 : Function.Injective (fun i : Fin (l.length + 1) =>
        (⟨R i.val, by have := hrange i.val (by omega); omega⟩ : Fin (l.length + 1))) := by
      intro x y hxy
      have : R x.val = R y.val := by
        have := congrArg Fin.val hxy
        simpa using this
      exact Fin.ext (hinj x.val (by omega) y.val (by omega) this)
    have hsurj2 := Finite.injective_iff_surjective.mp hinj2
    obtain ⟨p, hp⟩ := hsurj2 ⟨l.length, by omega⟩
    refine ⟨p.val, by omega, ?_⟩
    have := congrArg Fin.val hp
    simpa using this
  obtain ⟨p, hple, hpval⟩ := hsurj
  have hplt : p < l.length := by
    rcases Nat.lt_or_ge p l.length with h | h
    · exact h
    · exfalso
      apply hne
      have hpeq : p = l.length := by omega
      rw [← hpeq, hpval]
      exact hpeq.symm
  have h1 : sortKey l (R p) ≤ sortKey l (R l.length) := hsort l.length (le_refl _) p (by omega)
  rw [hpval] at h1
  have h2 : sortKey l l.length = fltMaxV := by
    unfold sortKey
    rw [if_neg (by omega)]
  have h3 : sortKey l (R l.length) < fltMaxV := by
    unfold sortKey
    rw [if_pos hlt]
    exact hm _ (getD_mem_of_lt l (R l.length) hlt)
  omega

theorem sorter_lt (l : List AABB) (R : Nat → Nat) (hs : sorterOK l R)
    (hm : ∀ b ∈ l, b.minx < fltMaxV) :
    ∀ i, i < l.length → R i < l.length := by
  intro i hi
  have h1 := hs.1 i (by omega)
  rcases Nat.lt_or_ge (R i) l.length with h | h
  · exact h
  · exfalso
    have : R i = l.length := by omega
    have h2 := sorter_last l R hs hm
    have := hs.2.1 i (by omega) l.length (le_refl _) (by rw [this, h2])
    omega

theorem sorter_surj (l : List AABB) (R : Nat → Nat) (hs : sorterOK l R)
    (hm : ∀ b ∈ l, b.minx < fltMaxV) :
    ∀ a, a < l.length → ∃ p, p < l.length ∧ R p = a := by
  intro a ha
  have hrange := hs.1
  have hinj := hs.2.1
  have hinj2 : Function.Injective (fun i : Fin (l.length + 1) =>
      (⟨R i.val, by have := hrange i.val (by omega); omega⟩ : Fin (l.length + 1))) := by
    intro x y hxy
    have : R x.val = R y.val := by
      have := congrArg Fin.val hxy
      simpa using this
    exact Fin.ext (hinj x.val (by omega) y.val (by omega) this)
  obtain ⟨p, hp⟩ := Finite.injective_iff_surjective.mp hinj2 ⟨a, by omega⟩
  have hpv : R p.val = a := by
    have := congrArg Fin.val hp
    simpa using this
  refine ⟨p.val, ?_, hpv⟩
  rcases Nat.lt_or_ge p.val l.length with h | h
  · exact h
  · exfalso
    have hpl : p.val = l.length := by omega
    rw [hpl, sorter_last l R hs hm] at hpv
    omega

theorem sortedBoxes_mem (l : List AABB) (R : Nat → Nat) (hs : sorterOK l R)
    (hm : ∀ b ∈ l, b.minx < fltMaxV) :
    ∀ i, i < l.length → sortedBoxes l R i ∈ l := by
  intro i hi
  unfold sortedBoxes
  rw [if_pos hi]
  exact getD_mem_of_lt l (R i) (sorter_lt l R hs hm i hi)

theorem sortedBoxes_minx_sentinel (l : List AABB) (R : Nat → Nat) :
    ∀ i, l.length ≤ i → (sortedBoxes l R i).minx = fltMaxV := by
  intro i hi
  unfold sortedBoxes
  rw [if_neg (by omega)]

theorem sortedBoxes_mono (l : List AABB) (R : Nat → Nat) (hs : sorterOK l R)
    (hm : ∀ b ∈ l, b.minx < fltMaxV) :
    ∀ i j, i ≤ j → (sortedBoxes l R i).minx ≤ (sortedBoxes l R j).minx := by
  intro i j hij
  rcases Nat.lt_or_ge i l.length with hi | hi
  · rcases Nat.lt_or_ge j l.length with hj | hj
    · have h1 := hs.2.2 j (by omega) i hij
      have hri := sorter_lt l R hs hm i hi
      have hrj := sorter_lt l R hs hm j hj
      unfold sortKey at h1
      rw [if_pos hri, if_pos hrj] at h1
      unfold sortedBoxes
      rw [if_pos hi, if_pos hj]
      exact h1
    · have h2 := hm _ (sortedBoxes_mem l R hs hm i hi)
      rw [sortedBoxes_minx_sentinel l R j hj]
      omega
  · have hji : l.length ≤ j := by omega
    rw [sortedBoxes_minx_sentinel l R i hi, sortedBoxes_minx_sentinel l R j hji]

/-! ### Characterizing the bipartite loops -/

theorem runWhileLt_eq (bl : Nat → AABB) (limit : Int) :
    ∀ (fuel r S : Nat), r ≤ S → (∀ k, r ≤ k → k < S → (bl k).minx < limit) →
      ¬ (bl S).minx < limit → S ≤ r + fuel → runWhileLt bl limit fuel r = S := by
  intro fuel
  induction fuel with
  | zero =>
    intro r S h1 _ _ h4
    have : S = r := by omega
    rw [this]
    rfl
  | succ fuel ih =>
    intro r S h1 h2 h3 h4
    unfold runWhileLt
    by_cases hc : (bl r).minx < limit
    · rw [if_pos hc]
      have hne : r ≠ S := fun he => h3 (he ▸ hc)
      exact ih (r + 1) S (by omega) (fun k hk1 hk2 => h2 k (by omega) hk2) h3 (by omega)
    · rw [if_neg hc]
      rcases Nat.lt_or_ge r S with h | h
      · exact absurd (h2 r (le_refl r) h) hc
      · omega

theorem runWhileLe_eq (bl : Nat → AABB) (limit : Int) :
    ∀ (fuel r S : Nat), r ≤ S → (∀ k, r ≤ k → k < S → (bl k).minx ≤ limit) →
      ¬ (bl S).minx ≤ limit → S ≤ r + fuel → runWhileLe bl limit fuel r = S := by
  intro fuel
  induction fuel with
  | zero =>
    intro r S h1 _ _ h4
    have : S = r := by omega
    rw [this]
    rfl
  | succ fuel ih =>
    intro r S h1 h2 h3 h4
    unfold runWhileLe
    by_cases hc : (bl r).minx ≤ limit
    · rw [if_pos hc]
      have hne : r ≠ S := fun he => h3 (he ▸ hc)
      exact ih (r + 1) S (by omega) (fun k hk1 hk2 => h2 k (by omega) hk2) h3 (by omega)
    · rw [if_neg hc]
      rcases Nat.lt_or_ge r S with h | h
      · exact absurd (h2 r (le_refl r) h) hc
      · omega

theorem bipInner1_eq (bl1 : Nat → AABB) (R1 : Nat → Nat) (box0 : AABB) (rid0 : Nat) :
    ∀ (fuel i1 E : Nat) (acc : List (Nat × Nat)),
      i1 ≤ E → (∀ k, i1 ≤ k → k < E → (bl1 k).minx ≤ box0.maxx) →
      ¬ (bl1 E).minx ≤ box0.maxx → E ≤ i1 + fuel →
      bipInner1 bl1 R1 box0 rid0 fuel i1 acc =
        acc ++ ((List.range' i1 (E - i1)).filter
          (fun k => intersects2D box0 (bl1 k))).map (fun k => (rid0, R1 k)) := by
  intro fuel
  induction fuel with
  | zero =>
    intro i1 E acc h1 _ _ h4
    have hE : E = i1 := by omega
    subst hE
    simp [bipInner1]
  | succ fuel ih =>
    intro i1 E acc h1 h2 h3 h4
    unfold bipInner1
    by_cases hc : (bl1 i1).minx ≤ box0.maxx
    · rw [if_pos hc]
      have hlt : i1 < E := by
        rcases Nat.lt_or_ge i1 E with h | h
        · exact h
        · exfalso; have : E = i1 := by omega
          exact h3 (this ▸ hc)
      rw [ih (i1 + 1) E _ (by omega) (fun k hk1 hk2 => h2 k (by omega) hk2) h3 (by omega)]
      have hrange : List.range' i1 (E - i1) = i1 :: List.range' (i1 + 1) (E - (i1 + 1)) := by
        have h5 : E - i1 = (E - (i1 + 1)) + 1 := by omega
        rw [h5, List.range'_succ]
      rw [hrange]
      by_cases hI : intersects2D box0 (bl1 i1) = true
      · rw [if_pos hI]
        simp [List.filter_cons, hI]
      · rw [if_neg hI]
        simp [List.filter_cons, hI]
    · rw [if_neg hc]
      rcases Nat.lt_or_ge i1 E with h | h
      · exact absurd (h2 i1 (le_refl i1) h) hc
      · have hE : E = i1 := by omega
        subst hE
        simp

theorem bipInner2_eq (bl0 : Nat → AABB) (R0 : Nat → Nat) (box1 : AABB) (rid1 : Nat) :
    ∀ (fuel i1 E : Nat) (acc : List (Nat × Nat)),
      i1 ≤ E → (∀ k, i1 ≤ k → k < E → (bl0 k).minx ≤ box1.maxx) →
      ¬ (bl0 E).minx ≤ box1.maxx → E ≤ i1 + fuel →
      bipInner2 bl0 R0 box1 rid1 fuel i1 acc =
        acc ++ ((List.range' i1 (E - i1)).filter
          (fun k => intersects2D (bl0 k) box1)).map (fun k => (R0 k, rid1)) := by
  intro fuel
  induction fuel with
  | zero =>
    intro i1 E acc h1 _ _ h4
    have hE : E = i1 := by omega
    subst hE
    simp [bipInner2]
  | succ fuel ih =>
    intro i1 E acc h1 h2 h3 h4
    unfold bipInner2
    by_cases hc : (bl0 i1).minx ≤ box1.maxx
    · rw [if_pos hc]
      have hlt : i1 < E := by
        rcases Nat.lt_or_ge i1 E with h | h
        · exact h
        · exfalso; have : E = i1 := by omega
          exact h3 (this ▸ hc)
      rw [ih (i1 + 1) E _ (by omega) (fun k hk1 hk2 => h2 k (by omega) hk2) h3 (by omega)]
      have hrange : List.range' i1 (E - i1) = i1 :: List.range' (i1 + 1) (E - (i1 + 1)) := by
        have h5 : E - i1 = (E - (i1 + 1)) + 1 := by omega
        rw [h5, List.range'_succ]
      rw [hrange]
      by_cases hI : intersects2D (bl0 i1) box1 = true
      · rw [if_pos hI]
        simp [List.filter_cons, hI]
      · rw [if_neg hI]
        simp [List.filter_cons, hI]
    · rw [if_neg hc]
      rcases Nat.lt_or_ge i1 E with h | h
      · exact absurd (h2 i1 (le_refl i1) h) hc
      · have hE : E = i1 := by omega
        subst hE
        simp

/-! ### Reference description of the bipartite output

`refRow1 p` lists the pairs the first sweep emits for the set-0 box at sorted
position `p`; `refRow2 p` the pairs the second sweep emits for the set-1 box
at sorted position `p`.  Together (spec §4.F) they cover every overlapping
pair exactly once: the first sweep catches `B.MinX ≥ A.MinX`, the second
`A.MinX > B.MinX`. -/

def refRow1 (l0 l1 : List AABB) (R0 R1 : Nat → Nat) (p : Nat) : List (Nat × Nat) :=
  ((List.range l1.length).filter (fun q =>
      decide ((sortedBoxes l0 R0 p).minx ≤ (sortedBoxes l1 R1 q).minx) &&
      decide ((sortedBoxes l1 R1 q).minx ≤ (sortedBoxes l0 R0 p).maxx) &&
      intersects2D (sortedBoxes l0 R0 p) (sortedBoxes l1 R1 q))).map
    (fun q => (R0 p, R1 q))

def refPairs1 (l0 l1 : List AABB) (R0 R1 : Nat → Nat) : List (Nat × Nat) :=
  (List.range l0.length).flatMap (refRow1 l0 l1 R0 R1)

def refRow2 (l0 l1 : List AABB) (R0 R1 : Nat → Nat) (p : Nat) : List (Nat × Nat) :=
  ((List.range l0.length).filter (fun q =>
      decide ((sortedBoxes l1 R1 p).minx < (sortedBoxes l0 R0 q).minx) &&
      decide ((sortedBoxes l0 R0 q).minx ≤ (sortedBoxes l1 R1 p).maxx) &&
      intersects2D (sortedBoxes l0 R0 q) (sortedBoxes l1 R1 p))).map
    (fun q => (R0 q, R1 p))

def refPairs2 (l0 l1 : List AABB) (R0 R1 : Nat → Nat) : List (Nat × Nat) :=
  (List.range l1.length).flatMap (refRow2 l0 l1 R0 R1)

theorem range_split (n S E : Nat) (h1 : S ≤ E) (h2 : E ≤ n) :
    List.range n = List.range' 0 S ++ List.range' S (E - S) ++ List.range' E (n - E) := by
  have hs1 : List.range' 0 S ++ List.range' S (E - S) = List.range' 0 E := by
    have h := List.range'_append 0 S (E - S) 1
    simp only [Nat.zero_add, Nat.one_mul] at h
    rw [h]
    congr 1
    omega
  have hs2 : List.range' 0 E ++ List.range' E (n - E) = List.range' 0 n := by
    have h := List.range'_append 0 E (n - E) 1
    simp only [Nat.zero_add, Nat.one_mul] at h
    rw [h]
    congr 1
    omega
  rw [List.range_eq_range', ← hs2, ← hs1]

theorem filter_window (P Q : Nat → Bool) (n S E : Nat) (h1 : S ≤ E) (h2 : E ≤ n)
    (hlow : ∀ k, k < S → P k = false)
    (hhigh : ∀ k, E ≤ k → P k = false)
    (hmid : ∀ k, S ≤ k → k < E → P k = Q k) :
    (List.range n).filter P = (List.range' S (E - S)).filter Q := by
  rw [range_split n S E h1 h2, List.filter_append, List.filter_append]
  have hnil1 : (List.range' 0 S).filter P = [] := by
    rw [List.filter_eq_nil_iff]
    intro k hk
    have hk2 : k < S := by
      have := List.mem_range'_1.mp hk
      omega
    simp [hlow k hk2]
  have hnil2 : (List.range' E (n - E)).filter P = [] := by
    rw [List.filter_eq_nil_iff]
    intro k hk
    have hk2 : E ≤ k := by
      have := List.mem_range'_1.mp hk
      omega
    simp [hhigh k hk2]
  have hmid2 : (List.range' S (E - S)).filter P = (List.range' S (E - S)).filter Q := by
    apply List.filter_congr
    intro k hk
    have hk2 : S ≤ k ∧ k < E := by
      have := List.mem_range'_1.mp hk
      omega
    exact hmid k hk2.1 hk2.2
  rw [hnil1, hnil2, hmid2]
  simp

theorem refRow1_eq (l0 l1 : List AABB) (R0 R1 : Nat → Nat) (p S E : Nat)
    (hSE : S ≤ E) (hEnb : E ≤ l1.length)
    (hltS : ∀ k, k < S → (sortedBoxes l1 R1 k).minx < (sortedBoxes l0 R0 p).minx)
    (hgeS : ∀ k, S ≤ k → (sortedBoxes l0 R0 p).minx ≤ (sortedBoxes l1 R1 k).minx)
    (hleE : ∀ k, k < E → (sortedBoxes l1 R1 k).minx ≤ (sortedBoxes l0 R0 p).maxx)
    (hgtE : ∀ k, E ≤ k → ¬ (sortedBoxes l1 R1 k).minx ≤ (sortedBoxes l0 R0 p).maxx) :
    refRow1 l0 l1 R0 R1 p =
      ((List.range' S (E - S)).filter
        (fun k => intersects2D (sortedBoxes l0 R0 p) (sortedBoxes l1 R1 k))).map
        (fun k => (R0 p, R1 k)) := by
  unfold refRow1
  rw [filter_window _ (fun k => intersects2D (sortedBoxes l0 R0 p) (sortedBoxes l1 R1 k))
    l1.length S E hSE hEnb]
  · intro k hk
    have := hltS k hk
    simp only [Bool.and_eq_true, decide_eq_true_eq, Bool.and_eq_false_iff]
    left
    left
    simp only [decide_eq_false_iff_not]
    omega
  · intro k hk
    have := hgtE k hk
    simp only [Bool.and_eq_false_iff]
    left
    right
    simp only [decide_eq_false_iff_not]
    omega
  · intro k hk1 hk2
    have h1 := hgeS k hk1
    have h2 := hleE k hk2
    simp [h1, h2]

theorem refRow2_eq (l0 l1 : List AABB) (R0 R1 : Nat → Nat) (p S E : Nat)
    (hSE : S ≤ E) (hEnb : E ≤ l0.length)
    (hltS : ∀ k, k < S → (sortedBoxes l0 R0 k).minx ≤ (sortedBoxes l1 R1 p).minx)
    (hgeS : ∀ k, S ≤ k → (sortedBoxes l1 R1 p).minx < (sortedBoxes l0 R0 k).minx)
    (hleE : ∀ k, k < E → (sortedBoxes l0 R0 k).minx ≤ (sortedBoxes l1 R1 p).maxx)
    (hgtE : ∀ k, E ≤ k → ¬ (sortedBoxes l0 R0 k).minx ≤ (sortedBoxes l1 R1 p).maxx) :
    refRow2 l0 l1 R0 R1 p =
      ((List.range' S (E - S)).filter
        (fun k => intersects2D (sortedBoxes l0 R0 k) (sortedBoxes l1 R1 p))).map
        (fun k => (R0 k, R1 p)) := by
  unfold refRow2
  rw [filter_window _ (fun k => intersects2D (sortedBoxes l0 R0 k) (sortedBoxes l1 R1 p))
    l0.length S E hSE hEnb]
  · intro k hk
    have := hltS k hk
    simp only [Bool.and_eq_false_iff]
    left
    left
    simp only [decide_eq_false_iff_not]
    omega
  · intro k hk
    have := hgtE k hk
    simp only [Bool.and_eq_false_iff]
    left
    right
    simp only [decide_eq_false_iff_not]
    omega
  · intro k hk1 hk2
    have h1 := hgeS k hk1
    have h2 := hleE k hk2
    simp [h1, h2]

theorem flatMap_eq_nil_of {α : Type} (l : List Nat) (f : Nat → List α)
    (h : ∀ x ∈ l, f x = []) : l.flatMap f = [] := by
  induction l with
  | nil => rfl
  | cons a t ih =>
    rw [List.flatMap_cons, h a (by simp), ih (fun x hx => h x (by simp [hx]))]
    rfl

theorem bipSweep1_eq (l0 l1 : List AABB) (R0 R1 : Nat → Nat)
    (hs0 : sorterOK l0 R0) (hb0 : boxesOK l0) (hs1 : sorterOK l1 R1) (hb1 : boxesOK l1) :
    ∀ (fuel i0 r1 : Nat) (acc : List (Nat × Nat)),
      l0.length ≤ i0 + fuel →
      r1 ≤ l1.length →
      (∀ k, k < r1 → (sortedBoxes l1 R1 k).minx < (sortedBoxes l0 R0 i0).minx) →
      bipSweep1 (sortedBoxes l0 R0) (sortedBoxes l1 R1) R0 R1 l0.length l1.length
          fuel i0 r1 acc =
        acc ++ (List.range' i0 (l0.length - i0)).flatMap (refRow1 l0 l1 R0 R1) := by
  intro fuel
  induction fuel with
  | zero =>
    intro i0 r1 acc hfuel hr1 hinv
    have h0 : l0.length - i0 = 0 := by omega
    rw [h0]
    simp [bipSweep1]
  | succ fuel ih =>
    intro i0 r1 acc hfuel hr1 hinv
    unfold bipSweep1
    by_cases hout : r1 < l1.length ∧ i0 < l0.length
    · rw [if_pos hout]
      obtain ⟨hr1lt, hi0lt⟩ := hout
      have hbox0 := hb0 _ (sortedBoxes_mem l0 R0 hs0 (boxesOK_minx l0 hb0) i0 hi0lt)
      have hmono1 := sortedBoxes_mono l1 R1 hs1 (boxesOK_minx l1 hb1)
      have hmono0 := sortedBoxes_mono l0 R0 hs0 (boxesOK_minx l0 hb0)
      -- the running pointer stops at the first slot whose MinX is not below MinLimit
      have hexS : ∃ k, ¬ (sortedBoxes l1 R1 k).minx < (sortedBoxes l0 R0 i0).minx := by
        refine ⟨l1.length, ?_⟩
        rw [sortedBoxes_minx_sentinel l1 R1 l1.length (le_refl _)]
        have := hbox0.2.2.2.1
        omega
      have hSspec := Nat.find_spec hexS
      have hSmin : ∀ k, k < Nat.find hexS → (sortedBoxes l1 R1 k).minx <
          (sortedBoxes l0 R0 i0).minx := by
        intro k hk
        have := Nat.find_min hexS hk
        omega
      have hSle : Nat.find hexS ≤ l1.length := Nat.find_le (by
        rw [sortedBoxes_minx_sentinel l1 R1 l1.length (le_refl _)]
        have := hbox0.2.2.2.1
        omega)
      have hr1S : r1 ≤ Nat.find hexS := by
        by_contra hcon
        exact hSspec (hinv (Nat.find hexS) (by omega))
      have hrw : runWhileLt (sortedBoxes l1 R1) (sortedBoxes l0 R0 i0).minx
          (l1.length + 1) r1 = Nat.find hexS :=
        runWhileLt_eq _ _ _ _ _ hr1S (fun k _ hk2 => hSmin k hk2) hSspec (by omega)
      -- the scan stops at the first slot whose MinX exceeds MaxLimit
      have hexE : ∃ k, ¬ (sortedBoxes l1 R1 k).minx ≤ (sortedBoxes l0 R0 i0).maxx := by
        refine ⟨l1.length, ?_⟩
        rw [sortedBoxes_minx_sentinel l1 R1 l1.length (le_refl _)]
        have := hbox0.2.2.2.2
        omega
      have hEspec := Nat.find_spec hexE
      have hEmin : ∀ k, k < Nat.find hexE → (sortedBoxes l1 R1 k).minx ≤
          (sortedBoxes l0 R0 i0).maxx := by
        intro k hk
        have := Nat.find_min hexE hk
        omega
      have hEle : Nat.find hexE ≤ l1.length := Nat.find_le (by
        rw [sortedBoxes_minx_sentinel l1 R1 l1.length (le_refl _)]
        have := hbox0.2.2.2.2
        omega)
      have hSE : Nat.find hexS ≤ Nat.find hexE := by
        by_contra hcon
        apply hEspec
        have h1 := hSmin (Nat.find hexE) (by omega)
        have h2 := hbox0.1
        omega
      have hinner := bipInner1_eq (sortedBoxes l1 R1) R1 (sortedBoxes l0 R0 i0) (R0 i0)
        (l1.length + 1) (Nat.find hexS) (Nat.find hexE) acc hSE
        (fun k _ hk2 => hEmin k hk2) hEspec (by omega)
      have hrow := refRow1_eq l0 l1 R0 R1 i0 (Nat.find hexS) (Nat.find hexE) hSE hEle
        hSmin
        (fun k hk => by
          have h1 := hmono1 (Nat.find hexS) k hk
          omega)
        hEmin
        (fun k hk => by
          have h1 := hmono1 (Nat.find hexE) k hk
          omega)
      rw [hrw, hinner]
      rw [ih (i0 + 1) (Nat.find hexS) _ (by omega) hSle (fun k hk => by
        have h1 := hSmin k hk
        have h2 := hmono0 i0 (i0 + 1) (by omega)
        omega)]
      have hcons : List.range' i0 (l0.length - i0) =
          i0 :: List.range' (i0 + 1) (l0.length - (i0 + 1)) := by
        have h5 : l0.length - i0 = (l0.length - (i0 + 1)) + 1 := by omega
        rw [h5, List.range'_succ]
      rw [hcons, List.flatMap_cons, hrow]
      simp
    · rw [if_neg hout]
      have hnil : (List.range' i0 (l0.length - i0)).flatMap (refRow1 l0 l1 R0 R1) = [] := by
        apply flatMap_eq_nil_of
        intro p hp
        have hp2 : i0 ≤ p ∧ p < l0.length := by
          have := List.mem_range'_1.mp hp
          omega
        have hi0lt : i0 < l0.length := by omega
        have hr1eq : r1 = l1.length := by
          by_contra hne
          exact hout ⟨by omega, hi0lt⟩
        unfold refRow1
        rw [List.filter_eq_nil_iff.mpr, List.map_nil]
        intro q hq
        have hq2 : q < l1.length := List.mem_range.mp hq
        have h1 := hinv q (by omega)
        have h2 := sortedBoxes_mono l0 R0 hs0 (boxesOK_minx l0 hb0) i0 p hp2.1
        simp only [Bool.and_eq_true, decide_eq_true_eq, not_and]
        intro hcon
        omega
      rw [hnil]
      simp

theorem bipSweep2_eq (l0 l1 : List AABB) (R0 R1 : Nat → Nat)
    (hs0 : sorterOK l0 R0) (hb0 : boxesOK l0) (hs1 : sorterOK l1 R1) (hb1 : boxesOK l1) :
    ∀ (fuel i0 r0 : Nat) (acc : List (Nat × Nat)),
      l1.length ≤ i0 + fuel →
      r0 ≤ l0.length →
      (∀ k, k < r0 → (sortedBoxes l0 R0 k).minx ≤ (sortedBoxes l1 R1 i0).minx) →
      bipSweep2 (sortedBoxes l0 R0) (sortedBoxes l1 R1) R0 R1 l0.length l1.length
          fuel i0 r0 acc =
        acc ++ (List.range' i0 (l1.length - i0)).flatMap (refRow2 l0 l1 R0 R1) := by
  intro fuel
  induction fuel with
  | zero =>
    intro i0 r0 acc hfuel hr0 hinv
    have h0 : l1.length - i0 = 0 := by omega
    rw [h0]
    simp [bipSweep2]
  | succ fuel ih =>
    intro i0 r0 acc hfuel hr0 hinv
    unfold bipSweep2
    by_cases hout : r0 < l0.length ∧ i0 < l1.length
    · rw [if_pos hout]
      obtain ⟨hr0lt, hi0lt⟩ := hout
      have hbox1 := hb1 _ (sortedBoxes_mem l1 R1 hs1 (boxesOK_minx l1 hb1) i0 hi0lt)
      have hmono1 := sortedBoxes_mono l1 R1 hs1 (boxesOK_minx l1 hb1)
      have hmono0 := sortedBoxes_mono l0 R0 hs0 (boxesOK_minx l0 hb0)
      have hexS : ∃ k, ¬ (sortedBoxes l0 R0 k).minx ≤ (sortedBoxes l1 R1 i0).minx := by
        refine ⟨l0.length, ?_⟩
        rw [sortedBoxes_minx_sentinel l0 R0 l0.length (le_refl _)]
        have := hbox1.2.2.2.1
        omega
      have hSspec := Nat.find_spec hexS
      have hSmin : ∀ k, k < Nat.find hexS → (sortedBoxes l0 R0 k).minx ≤
          (sortedBoxes l1 R1 i0).minx := by
        intro k hk
        have := Nat.find_min hexS hk
        omega
      have hSle : Nat.find hexS ≤ l0.length := Nat.find_le (by
        rw [sortedBoxes_minx_sentinel l0 R0 l0.length (le_refl _)]
        have := hbox1.2.2.2.1
        omega)
      have hr0S : r0 ≤ Nat.find hexS := by
        by_contra hcon
        exact hSspec (hinv (Nat.find hexS) (by omega))
      have hrw : runWhileLe (sortedBoxes l0 R0) (sortedBoxes l1 R1 i0).minx
          (l0.length + 1) r0 = Nat.find hexS :=
        runWhileLe_eq _ _ _ _ _ hr0S (fun k _ hk2 => hSmin k hk2) hSspec (by omega)
      have hexE : ∃ k, ¬ (sortedBoxes l0 R0 k).minx ≤ (sortedBoxes l1 R1 i0).maxx := by
        refine ⟨l0.length, ?_⟩
        rw [sortedBoxes_minx_sentinel l0 R0 l0.length (le_refl _)]
        have := hbox1.2.2.2.2
        omega
      have hEspec := Nat.find_spec hexE
      have hEmin : ∀ k, k < Nat.find hexE → (sortedBoxes l0 R0 k).minx ≤
          (sortedBoxes l1 R1 i0).maxx := by
        intro k hk
        have := Nat.find_min hexE hk
        omega
      have hEle : Nat.find hexE ≤ l0.length := Nat.find_le (by
        rw [sortedBoxes_minx_sentinel l0 R0 l0.length (le_refl _)]
        have := hbox1.2.2.2.2
        omega)
      have hSE : Nat.find hexS ≤ Nat.find hexE := by
        by_contra hcon
        apply hEspec
        have h1 := hSmin (Nat.find hexE) (by omega)
        have h2 := hbox1.1
        omega
      have hinner := bipInner2_eq (sortedBoxes l0 R0) R0 (sortedBoxes l1 R1 i0) (R1 i0)
        (l0.length + 1) (Nat.find hexS) (Nat.find hexE) acc hSE
        (fun k _ hk2 => hEmin k hk2) hEspec (by omega)
      have hrow := refRow2_eq l0 l1 R0 R1 i0 (Nat.find hexS) (Nat.find hexE) hSE hEle
        hSmin
        (fun k hk => by
          have h1 := hmono0 (Nat.find hexS) k hk
          omega)
        hEmin
        (fun k hk => by
          have h1 := hmono0 (Nat.find hexE) k hk
          omega)
      rw [hrw, hinner]
      rw [ih (i0 + 1) (Nat.find hexS) _ (by omega) hSle (fun k hk => by
        have h1 := hSmin k hk
        have h2 := hmono1 i0 (i0 + 1) (by omega)
        omega)]
      have hcons : List.range' i0 (l1.length - i0) =
          i0 :: List.range' (i0 + 1) (l1.length - (i0 + 1)) := by
        have h5 : l1.length - i0 = (l1.length - (i0 + 1)) + 1 := by omega
        rw [h5, List.range'_succ]
      rw [hcons, List.flatMap_cons, hrow]
      simp
    · rw [if_neg hout]
      have hnil : (List.range' i0 (l1.length - i0)).flatMap (refRow2 l0 l1 R0 R1) = [] := by
        apply flatMap_eq_nil_of
        intro p hp
        have hp2 : i0 ≤ p ∧ p < l1.length := by
          have := List.mem_range'_1.mp hp
          omega
        have hi0lt : i0 < l1.length := by omega
        have hr0eq : r0 = l0.length := by
          by_contra hne
          exact hout ⟨by omega, hi0lt⟩
        unfold refRow2
        rw [List.filter_eq_nil_iff.mpr, List.map_nil]
        intro q hq
        have hq2 : q < l0.length := List.mem_range.mp hq
        have h1 := hinv q (by omega)
        have h2 := sortedBoxes_mono l1 R1 hs1 (boxesOK_minx l1 hb1) i0 p hp2.1
        simp only [Bool.and_eq_true, decide_eq_true_eq, not_and]
        intro hcon
        omega
      rw [hnil]
      simp

theorem sortedBoxes_getD (l : List AABB) (R : Nat → Nat) (p : Nat) (hp : p < l.length) :
    sortedBoxes l R p = l.getD (R p) AABB0 := by
  unfold sortedBoxes
  rw [if_pos hp]

theorem nodup_refPairs1 (l0 l1 : List AABB) (R0 R1 : Nat → Nat)
    (hs0 : sorterOK l0 R0) (hs1 : sorterOK l1 R1) :
    (refPairs1 l0 l1 R0 R1).Nodup := by
  unfold refPairs1
  rw [List.flatMap_def, List.nodup_flatten]
  constructor
  · intro lp hlp
    rw [List.mem_map] at hlp
    obtain ⟨p, hp, rfl⟩ := hlp
    unfold refRow1
    apply List.Nodup.map_on
    · intro x hx y hy hxy
      rw [List.mem_filter, List.mem_range] at hx hy
      have h1 : R1 x = R1 y := congrArg Prod.snd hxy
      exact hs1.2.1 x (by omega) y (by omega) h1
    · exact (List.nodup_range l1.length).filter _
  · rw [List.pairwise_map]
    apply List.Pairwise.imp_of_mem ?_ (List.pairwise_lt_range l0.length)
    intro p p' hp hp' hlt
    rw [List.mem_range] at hp hp'
    rw [List.disjoint_left]
    intro x hx hx'
    unfold refRow1 at hx hx'
    rw [List.mem_map] at hx hx'
    obtain ⟨q, _, hxq⟩ := hx
    obtain ⟨q', _, hxq'⟩ := hx'
    have h1 : R0 p = R0 p' := by
      have e1 := congrArg Prod.fst hxq
      have e2 := congrArg Prod.fst hxq'
      simp only at e1 e2
      exact e1.trans e2.symm
    have := hs0.2.1 p (by omega) p' (by omega) h1
    omega

theorem nodup_refPairs2 (l0 l1 : List AABB) (R0 R1 : Nat → Nat)
    (hs0 : sorterOK l0 R0) (hs1 : sorterOK l1 R1) :
    (refPairs2 l0 l1 R0 R1).Nodup := by
  unfold refPairs2
  rw [List.flatMap_def, List.nodup_flatten]
  constructor
  · intro lp hlp
    rw [List.mem_map] at hlp
    obtain ⟨p, hp, rfl⟩ := hlp
    unfold refRow2
    apply List.Nodup.map_on
    · intro x hx y hy hxy
      rw [List.mem_filter, List.mem_range] at hx hy
      have h1 : R0 x = R0 y := congrArg Prod.fst hxy
      exact hs0.2.1 x (by omega) y (by omega) h1
    · exact (List.nodup_range l0.length).filter _
  · rw [List.pairwise_map]
    apply List.Pairwise.imp_of_mem ?_ (List.pairwise_lt_range l1.length)
    intro p p' hp hp' hlt
    rw [List.mem_range] at hp hp'
    rw [List.disjoint_left]
    intro x hx hx'
    unfold refRow2 at hx hx'
    rw [List.mem_map] at hx hx'
    obtain ⟨q, _, hxq⟩ := hx
    obtain ⟨q', _, hxq'⟩ := hx'
    have h1 : R1 p = R1 p' := by
      have e1 := congrArg Prod.snd hxq
      have e2 := congrArg Prod.snd hxq'
      simp only at e1 e2
      exact e1.trans e2.symm
    have := hs1.2.1 p (by omega) p' (by omega) h1
    omega

theorem count_one_of_mem_nodup {a : Nat × Nat} {l : List (Nat × Nat)}
    (h : l.Nodup) (ha : a ∈ l) : l.count a = 1 := by
  induction l with
  | nil => cases ha
  | cons x t ih =>
    rw [List.count_cons]
    rcases List.mem_cons.mp ha with rfl | hat
    · have hx : a ∉ t := (List.nodup_cons.mp h).1
      rw [List.count_eq_zero.mpr hx]
      simp
    · have hnd := List.nodup_cons.mp h
      rw [ih hnd.2 hat]
      have hne : ¬ (a == x) = true := by
        intro hcon
        have hax : a = x := eq_of_beq hcon
        exact hnd.1 (hax ▸ hat)
      have hxa : ¬ x = a := by
        intro hcon
        apply hne
        rw [hcon]
        exact beq_self_eq_true a
      simp [hne, hxa]

theorem count_refPairs1 (l0 l1 : List AABB) (R0 R1 : Nat → Nat)
    (hs0 : sorterOK l0 R0) (hs1 : sorterOK l1 R1) (p q : Nat)
    (hp : p < l0.length) (hq : q < l1.length) :
    (refPairs1 l0 l1 R0 R1).count (R0 p, R1 q) =
      if ((sortedBoxes l0 R0 p).minx ≤ (sortedBoxes l1 R1 q).minx ∧
          (sortedBoxes l1 R1 q).minx ≤ (sortedBoxes l0 R0 p).maxx ∧
          intersects2D (sortedBoxes l0 R0 p) (sortedBoxes l1 R1 q) = true) then 1 else 0 := by
  split_ifs with hpred
  · apply count_one_of_mem_nodup (nodup_refPairs1 l0 l1 R0 R1 hs0 hs1)
    unfold refPairs1
    rw [List.mem_flatMap]
    refine ⟨p, List.mem_range.mpr hp, ?_⟩
    unfold refRow1
    rw [List.mem_map]
    refine ⟨q, ?_, rfl⟩
    rw [List.mem_filter]
    refine ⟨List.mem_range.mpr hq, ?_⟩
    simp [hpred.1, hpred.2.1, hpred.2.2]
  · rw [List.count_eq_zero]
    intro hmem
    unfold refPairs1 at hmem
    rw [List.mem_flatMap] at hmem
    obtain ⟨p', hp', hrow⟩ := hmem
    rw [List.mem_range] at hp'
    unfold refRow1 at hrow
    rw [List.mem_map] at hrow
    obtain ⟨q', hq', heq⟩ := hrow
    rw [List.mem_filter, List.mem_range] at hq'
    have hfst : R0 p' = R0 p := congrArg Prod.fst heq
    have hsnd : R1 q' = R1 q := congrArg Prod.snd heq
    have hpp : p' = p := hs0.2.1 p' (by omega) p (by omega) hfst
    have hqq : q' = q := hs1.2.1 q' (by omega) q (by omega) hsnd
    subst hpp
    subst hqq
    apply hpred
    have := hq'.2
    simp only [Bool.and_eq_true, decide_eq_true_eq] at this
    exact ⟨this.1.1, this.1.2, this.2⟩

theorem count_refPairs2 (l0 l1 : List AABB) (R0 R1 : Nat → Nat)
    (hs0 : sorterOK l0 R0) (hs1 : sorterOK l1 R1) (p q : Nat)
    (hp : p < l0.length) (hq : q < l1.length) :
    (refPairs2 l0 l1 R0 R1).count (R0 p, R1 q) =
      if ((sortedBoxes l1 R1 q).minx < (sortedBoxes l0 R0 p).minx ∧
          (sortedBoxes l0 R0 p).minx ≤ (sortedBoxes l1 R1 q).maxx ∧
          intersects2D (sortedBoxes l0 R0 p) (sortedBoxes l1 R1 q) = true) then 1 else 0 := by
  split_ifs with hpred
  · apply count_one_of_mem_nodup (nodup_refPairs2 l0 l1 R0 R1 hs0 hs1)
    unfold refPairs2
    rw [List.mem_flatMap]
    refine ⟨q, List.mem_range.mpr hq, ?_⟩
    unfold refRow2
    rw [List.mem_map]
    refine ⟨p, ?_, rfl⟩
    rw [List.mem_filter]
    refine ⟨List.mem_range.mpr hp, ?_⟩
    simp [hpred.1, hpred.2.1, hpred.2.2]
  · rw [List.count_eq_zero]
    intro hmem
    unfold refPairs2 at hmem
    rw [List.mem_flatMap] at hmem
    obtain ⟨q', hq', hrow⟩ := hmem
    rw [List.mem_range] at hq'
    unfold refRow2 at hrow
    rw [List.mem_map] at hrow
    obtain ⟨p', hp', heq⟩ := hrow
    rw [List.mem_filter, List.mem_range] at hp'
    have hfst : R0 p' = R0 p := congrArg Prod.fst heq
    have hsnd : R1 q' = R1 q := congrArg Prod.snd heq
    have hpp : p' = p := hs0.2.1 p' (by omega) p (by omega) hfst
    have hqq : q' = q := hs1.2.1 q' (by omega) q (by omega) hsnd
    subst hpp
    subst hqq
    apply hpred
    have := hp'.2
    simp only [Bool.and_eq_true, decide_eq_true_eq] at this
    exact ⟨this.1.1, this.1.2, this.2⟩

theorem BipartiteBoxPruning_eq (l0 l1 : List AABB) (R0 R1 : Nat → Nat)
    (hne0 : l0.length ≠ 0) (hne1 : l1.length ≠ 0)
    (hs0 : sorterOK l0 R0) (hs1 : sorterOK l1 R1)
    (hb0 : boxesOK l0) (hb1 : boxesOK l1) :
    BipartiteBoxPruning l0 l1 R0 R1 =
      some (refPairs1 l0 l1 R0 R1 ++ refPairs2 l0 l1 R0 R1) := by
  unfold BipartiteBoxPruning
  rw [if_neg (by push_neg; exact ⟨hne0, hne1⟩)]
  rw [bipSweep1_eq l0 l1 R0 R1 hs0 hb0 hs1 hb1 (l0.length + 1) 0 0 [] (by omega) (by omega)
    (fun k hk => absurd hk (Nat.not_lt_zero k))]
  rw [bipSweep2_eq l0 l1 R0 R1 hs0 hb0 hs1 hb1 (l1.length + 1) 0 0 _ (by omega) (by omega)
    (fun k hk => absurd hk (Nat.not_lt_zero k))]
  have hr0 : List.range' 0 (l0.length - 0) = List.range l0.length := by
    rw [Nat.sub_zero, List.range_eq_range']
  have hr1 : List.range' 0 (l1.length - 0) = List.range l1.length := by
    rw [Nat.sub_zero, List.range_eq_range']
  rw [List.nil_append, hr0, hr1]
  rfl

/-- Claim C2: for all non-empty valid inputs (boxes satisfying `min ≤ max` per
axis with `min.x`, `max.x` strictly below the `FLT_MAX` sentinel, and sorter
outputs satisfying the §4.B contract), `BipartiteBoxPruning` emits every
overlapping `(a, b) ∈ [0, nA) × [0, nB)` exactly once as
`(caller-A-index, caller-B-index)` — in particular pairs with
`A.MinX == B.MinX` once, via the strict `<` of the first sweep's running
pointer and the `<=` of the second's — and every emitted pair satisfies the
inclusive 3-axis overlap predicate. -/
theorem C2_bipartite_exact (l0 l1 : List AABB) (R0 R1 : Nat → Nat)
    (hne0 : l0.length ≠ 0) (hne1 : l1.length ≠ 0)
    (hs0 : sorterOK l0 R0) (hs1 : sorterOK l1 R1)
    (hb0 : boxesOK l0) (hb1 : boxesOK l1) :
    ∃ ps, BipartiteBoxPruning l0 l1 R0 R1 = some ps ∧
      (∀ pr ∈ ps, pr.1 < l0.length ∧ pr.2 < l1.length ∧
        overlapB (l0.getD pr.1 AABB0) (l1.getD pr.2 AABB0)) ∧
      (∀ a b, a < l0.length → b < l1.length →
        overlapB (l0.getD a AABB0) (l1.getD b AABB0) → ps.count (a, b) = 1) := by
  refine ⟨_, BipartiteBoxPruning_eq l0 l1 R0 R1 hne0 hne1 hs0 hs1 hb0 hb1, ?_, ?_⟩
  · -- soundness
    intro pr hpr
    rcases List.mem_append.mp hpr with hmem | hmem
    · unfold refPairs1 at hmem
      rw [List.mem_flatMap] at hmem
      obtain ⟨p, hp, hrow⟩ := hmem
      rw [List.mem_range] at hp
      unfold refRow1 at hrow
      rw [List.mem_map] at hrow
      obtain ⟨q, hqf, heq⟩ := hrow
      rw [List.mem_filter, List.mem_range] at hqf
      obtain ⟨hq, hpred⟩ := hqf
      simp only [Bool.and_eq_true, decide_eq_true_eq] at hpred
      obtain ⟨⟨h1, h2⟩, h3⟩ := hpred
      subst heq
      have hv1 := (hb1 _ (sortedBoxes_mem l1 R1 hs1 (boxesOK_minx l1 hb1) q hq)).1
      have hyz := (intersects2D_iff _ _).mp h3
      refine ⟨sorter_lt l0 R0 hs0 (boxesOK_minx l0 hb0) p hp, sorter_lt l1 R1 hs1 (boxesOK_minx l1 hb1) q hq, ?_⟩
      rw [← sortedBoxes_getD l0 R0 p hp, ← sortedBoxes_getD l1 R1 q hq]
      exact ⟨by omega, h2, hyz.1, hyz.2.1, hyz.2.2.1, hyz.2.2.2⟩
    · unfold refPairs2 at hmem
      rw [List.mem_flatMap] at hmem
      obtain ⟨p, hp, hrow⟩ := hmem
      rw [List.mem_range] at hp
      unfold refRow2 at hrow
      rw [List.mem_map] at hrow
      obtain ⟨q, hqf, heq⟩ := hrow
      rw [List.mem_filter, List.mem_range] at hqf
      obtain ⟨hq, hpred⟩ := hqf
      simp only [Bool.and_eq_true, decide_eq_true_eq] at hpred
      obtain ⟨⟨h1, h2⟩, h3⟩ := hpred
      subst heq
      have hv0 := (hb0 _ (sortedBoxes_mem l0 R0 hs0 (boxesOK_minx l0 hb0) q hq)).1
      have hyz := (intersects2D_iff _ _).mp h3
      refine ⟨sorter_lt l0 R0 hs0 (boxesOK_minx l0 hb0) q hq, sorter_lt l1 R1 hs1 (boxesOK_minx l1 hb1) p hp, ?_⟩
      rw [← sortedBoxes_getD l0 R0 q hq, ← sortedBoxes_getD l1 R1 p hp]
      exact ⟨h2, by omega, hyz.1, hyz.2.1, hyz.2.2.1, hyz.2.2.2⟩
  · -- exactly once
    intro a b ha hb hov
    obtain ⟨p, hp, hpa⟩ := sorter_surj l0 R0 hs0 (boxesOK_minx l0 hb0) a ha
    obtain ⟨q, hq, hqb⟩ := sorter_surj l1 R1 hs1 (boxesOK_minx l1 hb1) b hb
    subst hpa
    subst hqb
    rw [List.count_append,
      count_refPairs1 l0 l1 R0 R1 hs0 hs1 p q hp hq,
      count_refPairs2 l0 l1 R0 R1 hs0 hs1 p q hp hq]
    rw [← sortedBoxes_getD l0 R0 p hp, ← sortedBoxes_getD l1 R1 q hq] at hov
    obtain ⟨hx1, hx2, hyz1, hyz2, hyz3, hyz4⟩ := hov
    have hi2d : intersects2D (sortedBoxes l0 R0 p) (sortedBoxes l1 R1 q) = true :=
      (intersects2D_iff _ _).mpr ⟨hyz1, hyz2, hyz3, hyz4⟩
    by_cases hcase : (sortedBoxes l0 R0 p).minx ≤ (sortedBoxes l1 R1 q).minx
    · rw [if_pos ⟨hcase, hx2, hi2d⟩, if_neg (by
        intro hcon
        have := hcon.1
        omega)]
    · rw [if_neg (by
        intro hcon
        exact hcase hcon.1), if_pos ⟨by omega, hx1, hi2d⟩]

/-- Concrete input for the C2 witness: one box in set A, two boxes in set B,
one overlapping pair expected (spec §8 scenario S6 shape). -/
def wbipA : List AABB := [⟨0, 0, 0, 2, 2, 2⟩]

def wbipB : List AABB := [⟨1, 1, 1, 3, 3, 3⟩, ⟨10, 10, 10, 11, 11, 11⟩]

/-- Witness for `C2_bipartite_exact` on `wbipA`/`wbipB` with the identity
permutation (both key lists are already sorted). -/
theorem C2_bipartite_exact_witness :
    (wbipA.length ≠ 0 ∧ wbipB.length ≠ 0 ∧
      sorterOK wbipA (fun i => i) ∧ sorterOK wbipB (fun i => i) ∧
      boxesOK wbipA ∧ boxesOK wbipB) ∧
    (∃ ps, BipartiteBoxPruning wbipA wbipB (fun i => i) (fun i => i) = some ps ∧
      (∀ pr ∈ ps, pr.1 < wbipA.length ∧ pr.2 < wbipB.length ∧
        overlapB (wbipA.getD pr.1 AABB0) (wbipB.getD pr.2 AABB0)) ∧
      (∀ a b, a < wbipA.length → b < wbipB.length →
        overlapB (wbipA.getD a AABB0) (wbipB.getD b AABB0) → ps.count (a, b) = 1)) :=
  ⟨⟨by decide, by decide, by decide, by decide, by decide, by decide⟩,
    C2_bipartite_exact wbipA wbipB (fun i => i) (fun i => i)
      (by decide) (by decide) (by decide) (by decide) (by decide) (by decide)⟩

/-! ### Complete box pruning (`Meshmerizer::CompleteBoxPruning`, lines 668-776)

The SoA arena (spec §3, source lines 674-756): `NP = (nb+15) & ~7` slots, six
streams.  Slots `i < N` hold `list[Remap[i]]` (the 4-wide transpose fast path
at lines 705-735 and the scalar remainder at lines 736-746 write the same
values slot by slot); slots `N ≤ i` hold the sentinels written at lines
747-756: `MinX = 0x7fffffff`, `MaxX = -0x80000000` (as int32), `MinY = FLT_MAX`,
`MaxY = -FLT_MAX`, `MinZ = FLT_MAX`, `MaxZ = -FLT_MAX`.  The kernel reads only
below `NP`; the model extends the sentinels to every index `≥ N`.

The arena stores X coordinates munged (`MungeFloat`) and compares them as
signed int32; theorem `C5_signed_order_iff` shows the munge is strictly
monotone in the float value, so the model carries the float ranks themselves:
every comparison below matches the corresponding signed compare on munged
values.  Every munged non-NaN value is at most `0x7f800000` as a signed
int32, strictly below the `0x7fffffff` padding sentinel; in rank scale every
non-NaN rank is at most `infV`, and the model keeps the literal `0x7fffffff`,
which also lies strictly above `infV`. -/

def nbpad (nb : Nat) : Nat := (nb + 15) - (nb + 15) % 8

def arenaBox (l : List AABB) (R : Nat → Nat) (i : Nat) : AABB := l.getD (R i) AABB0

def aMinX (l : List AABB) (R : Nat → Nat) (i : Nat) : Int :=
  if i < l.length then (arenaBox l R i).minx else 2147483647

def aMaxX (l : List AABB) (R : Nat → Nat) (i : Nat) : Int :=
  if i < l.length then (arenaBox l R i).maxx else -2147483648

def aMinY (l : List AABB) (R : Nat → Nat) (i : Nat) : Int :=
  if i < l.length then (arenaBox l R i).miny else fltMaxV

def aMaxY (l : List AABB) (R : Nat → Nat) (i : Nat) : Int :=
  if i < l.length then (arenaBox l R i).maxy else -fltMaxV

def aMinZ (l : List AABB) (R : Nat → Nat) (i : Nat) : Int :=
  if i < l.length then (arenaBox l R i).minz else fltMaxV

def aMaxZ (l : List AABB) (R : Nat → Nat) (i : Nat) : Int :=
  if i < l.length then (arenaBox l R i).maxz else -fltMaxV

/-! ### Pair output buffer (lines 178-249)

The output `Container` is the external ICE container (spec §6); it is not in
this repository's sources.  Modelled from the spec: an owned flat `u32`
buffer with an entry count (`data.length`) and a capacity, `Add` appending
one word, `Resize n` guaranteeing capacity at least `n`.

`PairOutputBuffer` takes over the container's storage (lines 191-208).  Its
state is normalized to `mBegin`-relative offsets: `contents` holds the words
in `[mBegin, mEnd)` and `cap = (mHighWatermark + kSlack) - mBegin`.  For a
host with `count` entries the constructor sets `mBegin = entries + count` and
`mEnd = mBegin + count`, so `contents` starts as `count` words of
uninitialized storage (modelled as zeroes; the empty-host case of interest
starts with `contents = []` exactly). -/

structure Container where
  data : List Nat
  cap : Nat
deriving DecidableEq

structure POBState where
  contents : List Nat
  cap : Nat
deriving DecidableEq

def kSlack : Nat := 16

def mkPOB (host : Container) : POBState :=
  { contents := List.replicate host.data.length 0,
    cap := if host.cap < kSlack then kSlack else host.cap }

def finishPOB (pob : POBState) : Container :=
  { data := pob.contents, cap := pob.cap }

/-- `GrowPairOutputBuffer` (lines 210-222): double and add `2 * kSlack`,
copying the current entries. -/
def GrowPairOutputBuffer (buf : POBState) : POBState :=
  { contents := buf.contents, cap := buf.contents.length * 2 + 2 * kSlack }

/-- `Ctz32` (lines 225-230): count trailing zeroes, by 32 halving steps. -/
def ctz32Go : Nat → Nat → Nat
  | 0, _ => 0
  | fuel + 1, x => if x % 2 = 1 then 0 else ctz32Go fuel (x / 2) + 1

def Ctz32 (x : Nat) : Nat := ctz32Go 32 x

/-- The words written by the do-while loop of `ReportIntersections`
(lines 241-246): for each set bit of `mask`, low to high, the pair
`remap_id0, remap_base[Ctz32(mask)]`.  A 32-bit mask has at most 32 set bits,
so fuel 32 always suffices. -/
def reportPairs (remapId0 : Nat) (remapBase : Nat → Nat) : Nat → Nat → List Nat
  | 0, _ => []
  | fuel + 1, mask =>
    let w := [remapId0, remapBase (Ctz32 mask)]
    let mask2 := mask &&& (mask - 1)
    if mask2 = 0 then w else w ++ reportPairs remapId0 remapBase fuel mask2

/-- `ReportIntersections` (lines 233-249): grow when past the high watermark,
then append the mask's pairs. -/
def ReportIntersections (POB : POBState) (remapId0 : Nat) (remapBase : Nat → Nat)
    (mask : Nat) : POBState :=
  let POB1 := if POB.contents.length > POB.cap - kSlack then GrowPairOutputBuffer POB else POB
  { POB1 with contents := POB1.contents ++ reportPairs remapId0 remapBase 32 mask }

/-! ### The prune kernel (`BoxPruningKernelIntrinsics`, lines 262-334)

`CompleteBoxPruning` dispatches to the hand-written `BoxPruningKernelSSE2` or
`BoxPruningKernelAVX`; the intrinsics kernel is the C reference all variants
implement (spec §4.E: the variants share one specification and must produce
the same pair set), and is what this model embeds.  Pointers become arena
slot indices: `Box0Ptr` is `i`, `RunningPtr` is `r`, `Box1Ptr` is `j`,
`BoxEnd` is `l.length`. -/

/-- The running-pointer advance `while (MinX[r++] < MinLimit);` (line 270) —
note the post-increment: the returned value is one past the first slot whose
`MinX` is not below `MinLimit`. -/
def advance (l : List AABB) (R : Nat → Nat) (limit : Int) : Nat → Nat → Nat
  | 0, r => r + 1
  | fuel + 1, r => if aMinX l R r < limit then advance l R limit fuel (r + 1) else r + 1

/-- One SIMD lane of the Y/Z intersection test (lines 296-301):
`(b.MaxY ≥ a.MinY) ∧ (b.MinY ≤ a.MaxY) ∧ (b.MaxZ ≥ a.MinZ) ∧ (b.MinZ ≤ a.MaxZ)`
with `a` the outer box `i` and `b` the neighbor `q` (`cmpnlt` is `≥` on
non-NaN data). -/
def lanePassYZ (l : List AABB) (R : Nat → Nat) (i q : Nat) : Bool :=
  decide (aMaxY l R q ≥ aMinY l R i) && decide (aMinY l R q ≤ aMaxY l R i) &&
  decide (aMaxZ l R q ≥ aMinZ l R i) && decide (aMinZ l R q ≤ aMaxZ l R i)

/-- `_mm_movemask_ps` of the main-loop compare (line 303): bit `k` is lane
`k`, i.e. neighbor `j + k`. -/
def mainMask (l : List AABB) (R : Nat → Nat) (i j : Nat) : Nat :=
  (if lanePassYZ l R i j then 1 else 0) +
  2 * (if lanePassYZ l R i (j + 1) then 1 else 0) +
  4 * (if lanePassYZ l R i (j + 2) then 1 else 0) +
  8 * (if lanePassYZ l R i (j + 3) then 1 else 0)

/-- One lane of the tail-group test (lines 309-326): the Y/Z test and-not the
`OutsideMask` lane `MinX[j+k] > MaxLimit` (`_mm_cmpgt_epi32` on the munged
X values, i.e. a strict value compare). -/
def tailLane (l : List AABB) (R : Nat → Nat) (i : Nat) (maxLim : Int) (q : Nat) : Bool :=
  !(decide (aMinX l R q > maxLim)) && lanePassYZ l R i q

def tailMask (l : List AABB) (R : Nat → Nat) (i j : Nat) (maxLim : Int) : Nat :=
  (if tailLane l R i maxLim j then 1 else 0) +
  2 * (if tailLane l R i maxLim (j + 1) then 1 else 0) +
  4 * (if tailLane l R i maxLim (j + 2) then 1 else 0) +
  8 * (if tailLane l R i maxLim (j + 3) then 1 else 0)

/-- Main loop (lines 286-306): while a whole 4-wide group is inside the X
window (`MinX[j+3] ≤ MaxLimit`), test it on Y/Z and report the mask's hits.
Returns the final `Box1Ptr` together with the updated buffer. -/
def kernelMainLoop (l : List AABB) (R : Nat → Nat) (i : Nat) (maxLim : Int) :
    Nat → Nat → POBState → Nat × POBState
  | 0, j, st => (j, st)
  | fuel + 1, j, st =>
    if aMinX l R (j + 3) ≤ maxLim then
      kernelMainLoop l R i maxLim fuel (j + 4)
        (if mainMask l R i j ≠ 0 then
          ReportIntersections st (R i) (fun b => R (j + b)) (mainMask l R i j)
        else st)
    else (j, st)

/-- Tail group (lines 308-331): if the first of the remaining 4 slots is
still inside the X window, test all 4 with the outside lanes masked off. -/
def kernelTail (l : List AABB) (R : Nat → Nat) (i : Nat) (maxLim : Int) (j : Nat)
    (st : POBState) : POBState :=
  if aMinX l R j ≤ maxLim then
    if tailMask l R i j maxLim ≠ 0 then
      ReportIntersections st (R i) (fun b => R (j + b)) (tailMask l R i j maxLim)
    else st
  else st

/-- Outer loop (lines 267-333): per outer box, advance the running pointer
(post-incremented), terminate the whole prune if it reaches `BoxEnd`, else
scan forward from it. -/
def kernelOuter (l : List AABB) (R : Nat → Nat) : Nat → Nat → Nat → POBState → POBState
  | 0, _, _, st => st
  | fuel + 1, i, r, st =>
    if i < l.length then
      let r2 := advance l R (aMinX l R i) (l.length + 1) r
      if r2 ≥ l.length then st
      else
        let step := kernelMainLoop l R i (aMaxX l R i) (l.length + 1) r2 st
        kernelOuter l R fuel (i + 1) r2 (kernelTail l R i (aMaxX l R i) step.1 step.2)
    else st

/-- `Meshmerizer::CompleteBoxPruning` (lines 668-776): `none` models the
`return false` of the `if(!nb || !list)` checking at lines 671-672; otherwise
the kernel runs over the arena and the buffer is handed back to the
container. -/
def CompleteBoxPruning (l : List AABB) (R : Nat → Nat) (pairs : Container) :
    Option Container :=
  if l.length = 0 then none
  else some (finishPOB (kernelOuter l R (l.length + 1) 0 0 (mkPOB pairs)))

/-! ### Validity predicates for the complete pruner -/

def boxValid (b : AABB) : Prop :=
  b.minx ≤ b.maxx ∧ b.miny ≤ b.maxy ∧ b.minz ≤ b.maxz

/-- All six coordinates are ranks of non-NaN floats. -/
def coordsFinite (b : AABB) : Prop :=
  -infV ≤ b.minx ∧ b.minx ≤ infV ∧ -infV ≤ b.miny ∧ b.miny ≤ infV ∧
  -infV ≤ b.minz ∧ b.minz ≤ infV ∧ -infV ≤ b.maxx ∧ b.maxx ≤ infV ∧
  -infV ≤ b.maxy ∧ b.maxy ≤ infV ∧ -infV ≤ b.maxz ∧ b.maxz ≤ infV

instance (b : AABB) : Decidable (boxValid b) := by
  unfold boxValid
  infer_instance

instance (b : AABB) : Decidable (coordsFinite b) := by
  unfold coordsFinite
  infer_instance

theorem arenaBox_eq_sortedBoxes (l : List AABB) (R : Nat → Nat) (i : Nat)
    (hi : i < l.length) : arenaBox l R i = sortedBoxes l R i := by
  unfold arenaBox sortedBoxes
  rw [if_pos hi]

theorem arenaBox_mem (l : List AABB) (R : Nat → Nat) (hs : sorterOK l R)
    (hm : ∀ b ∈ l, b.minx < fltMaxV) (i : Nat) (hi : i < l.length) :
    arenaBox l R i ∈ l := by
  rw [arenaBox_eq_sortedBoxes l R i hi]
  exact sortedBoxes_mem l R hs hm i hi

theorem aMinX_sentinel (l : List AABB) (R : Nat → Nat) (i : Nat) (hi : l.length ≤ i) :
    aMinX l R i = 2147483647 := by
  unfold aMinX
  rw [if_neg (by omega)]

theorem aMinX_mono (l : List AABB) (R : Nat → Nat) (hs : sorterOK l R)
    (hm : ∀ b ∈ l, b.minx < fltMaxV) :
    ∀ i j, i ≤ j → aMinX l R i ≤ aMinX l R j := by
  intro i j hij
  rcases Nat.lt_or_ge i l.length with hi | hi
  · rcases Nat.lt_or_ge j l.length with hj | hj
    · unfold aMinX
      rw [if_pos hi, if_pos hj, arenaBox_eq_sortedBoxes l R i hi,
        arenaBox_eq_sortedBoxes l R j hj]
      exact sortedBoxes_mono l R hs hm i j hij
    · have h1 := hm _ (arenaBox_mem l R hs hm i hi)
      unfold aMinX
      rw [if_pos hi, if_neg (by omega)]
      unfold fltMaxV at h1
      omega
  · have hj : l.length ≤ j := by omega
    rw [aMinX_sentinel l R i hi, aMinX_sentinel l R j hj]

theorem aMaxX_le_infV (l : List AABB) (R : Nat → Nat) (hs : sorterOK l R)
    (hm : ∀ b ∈ l, b.minx < fltMaxV) (hf : ∀ b ∈ l, coordsFinite b)
    (i : Nat) (hi : i < l.length) : aMaxX l R i ≤ infV := by
  unfold aMaxX
  rw [if_pos hi]
  exact (hf _ (arenaBox_mem l R hs hm i hi)).2.2.2.2.2.2.2.1

theorem aMinX_le_aMaxX (l : List AABB) (R : Nat → Nat) (hs : sorterOK l R)
    (hm : ∀ b ∈ l, b.minx < fltMaxV) (hv : ∀ b ∈ l, boxValid b)
    (i : Nat) (hi : i < l.length) : aMinX l R i ≤ aMaxX l R i := by
  unfold aMinX aMaxX
  rw [if_pos hi, if_pos hi]
  exact (hv _ (arenaBox_mem l R hs hm i hi)).1

/-! ### Claim C3 -/

/-- Claim C3, as stated, is false: called with zero boxes, both entry points
take the `// Checkings` early-out (`if(!nb || ...) return false`, lines 43-44
and 671-672) and return `false` — the failure result (`none` in the model) —
rather than succeeding with an empty pair list. -/
theorem C3_zero_boxes_counterexample :
    CompleteBoxPruning [] (fun i => i) ⟨[], 0⟩ = none ∧
    BipartiteBoxPruning [] [AABB0] (fun i => i) (fun i => i) = none ∧
    BipartiteBoxPruning [AABB0] [] (fun i => i) (fun i => i) = none :=
  ⟨rfl, rfl, rfl⟩

/-- Claim C3 (amended): when called with zero boxes (`N = 0` for
`CompleteBoxPruning`; `nb0 = 0` or `nb1 = 0` for `BipartiteBoxPruning`), each
entry point returns `false` (failure, modelled `none`) immediately and emits
no pairs — not a successful empty pair list. -/
theorem C3_zero_boxes_return_false :
    (∀ (R : Nat → Nat) (c : Container), CompleteBoxPruning [] R c = none) ∧
    (∀ (l : List AABB) (R0 R1 : Nat → Nat), BipartiteBoxPruning [] l R0 R1 = none) ∧
    (∀ (l : List AABB) (R0 R1 : Nat → Nat), BipartiteBoxPruning l [] R0 R1 = none) := by
  refine ⟨fun R c => rfl, fun l R0 R1 => ?_, fun l R0 R1 => ?_⟩
  · unfold BipartiteBoxPruning
    have hc : ([] : List AABB).length = 0 ∨ l.length = 0 := Or.inl rfl
    rw [if_pos hc]
  · unfold BipartiteBoxPruning
    have hc : l.length = 0 ∨ ([] : List AABB).length = 0 := Or.inr rfl
    rw [if_pos hc]

/-! ### Claim C6 -/

/-- Claim C6, as stated, is false: the Y/Z padding sentinels written at lines
752-755 are `±FLT_MAX`, not `±∞`.  With one box, padding slot 1 is inside
`[N, NP)` and its `MinY` is the rank of `FLT_MAX` (pattern `0x7f7fffff`),
which differs from the rank of `+∞` (pattern `0x7f800000`). -/
theorem C6_padding_infinity_counterexample :
    1 < nbpad ([AABB0] : List AABB).length ∧
    aMinY [AABB0] (fun i => i) 1 = floatKey 2139095039 ∧
    floatKey 2139095039 ≠ floatKey 2139095040 := by
  refine ⟨by decide, by decide, by decide⟩

/-- Claim C6 (amended): after the arena is built from `N` boxes, every
padding slot `N ≤ i < NP` holds exactly the sentinels the code writes:
`MinX = 0x7FFFFFFF`, `MaxX = 0x80000000` (int32 `-2147483648`),
`MinY = +FLT_MAX`, `MaxY = -FLT_MAX`, `MinZ = +FLT_MAX`, `MaxZ = -FLT_MAX`;
and (for non-NaN boxes) no padding slot can satisfy the kernel's overlap test
against any real box: the X-window test `MinX[i] ≤ MaxX[p]` already fails. -/
theorem C6_padding_sentinels (l : List AABB) (R : Nat → Nat)
    (hf : ∀ b ∈ l, coordsFinite b) :
    ∀ i, l.length ≤ i → i < nbpad l.length →
      aMinX l R i = 2147483647 ∧ aMaxX l R i = -2147483648 ∧
      aMinY l R i = fltMaxV ∧ aMaxY l R i = -fltMaxV ∧
      aMinZ l R i = fltMaxV ∧ aMaxZ l R i = -fltMaxV ∧
      (∀ p, p < l.length → R p < l.length →
        ¬ (aMinX l R i ≤ aMaxX l R p ∧ lanePassYZ l R p i = true)) := by
  intro i hge hlt
  have hx : aMinX l R i = 2147483647 := aMinX_sentinel l R i hge
  refine ⟨hx, ?_, ?_, ?_, ?_, ?_, ?_⟩
  · unfold aMaxX; rw [if_neg (by omega)]
  · unfold aMinY; rw [if_neg (by omega)]
  · unfold aMaxY; rw [if_neg (by omega)]
  · unfold aMinZ; rw [if_neg (by omega)]
  · unfold aMaxZ; rw [if_neg (by omega)]
  · intro p hp hRp
    intro hcon
    have h1 : aMaxX l R p ≤ infV := by
      unfold aMaxX
      rw [if_pos hp]
      exact (hf _ (getD_mem_of_lt l (R p) hRp)).2.2.2.2.2.2.2.1
    rw [hx] at hcon
    have := hcon.1
    unfold infV at h1
    omega

/-- Witness for `C6_padding_sentinels`: one box, identity permutation,
padding slot 1. -/
theorem C6_padding_sentinels_witness :
    (∀ b ∈ ([AABB0] : List AABB), coordsFinite b) ∧
    (∀ i, ([AABB0] : List AABB).length ≤ i → i < nbpad ([AABB0] : List AABB).length →
      aMinX [AABB0] (fun k => k) i = 2147483647 ∧
      aMaxX [AABB0] (fun k => k) i = -2147483648 ∧
      aMinY [AABB0] (fun k => k) i = fltMaxV ∧ aMaxY [AABB0] (fun k => k) i = -fltMaxV ∧
      aMinZ [AABB0] (fun k => k) i = fltMaxV ∧ aMaxZ [AABB0] (fun k => k) i = -fltMaxV ∧
      (∀ p, p < ([AABB0] : List AABB).length → (fun k => k) p < ([AABB0] : List AABB).length →
        ¬ (aMinX [AABB0] (fun k => k) i ≤ aMaxX [AABB0] (fun k => k) p ∧
          lanePassYZ [AABB0] (fun k => k) p i = true))) :=
  ⟨by decide, C6_padding_sentinels [AABB0] (fun k => k) (by decide)⟩

/-! ### Claim C7 -/

/-- The value of the kernel's `RunningPtr` on entry to outer iteration `i`:
`0` initially, then whatever the previous iteration's advance left behind. -/
def runningAt (l : List AABB) (R : Nat → Nat) : Nat → Nat
  | 0 => 0
  | i + 1 => advance l R (aMinX l R i) (l.length + 1) (runningAt l R i)

/-- The advance starting at the outer slot itself stops immediately: the slot's
own `MinX` is not below itself, and the post-increment lands at `i + 1`. -/
theorem advance_self (l : List AABB) (R : Nat → Nat) (fuel i : Nat) :
    advance l R (aMinX l R i) (fuel + 1) i = i + 1 := by
  unfold advance
  rw [if_neg (lt_irrefl (aMinX l R i))]

/-- The running pointer entering iteration `i` is exactly `i`. -/
theorem runningAt_eq (l : List AABB) (R : Nat → Nat) : ∀ i, runningAt l R i = i := by
  intro i
  induction i with
  | zero => rfl
  | succ i ih =>
    unfold runningAt
    rw [ih, advance_self]

/-- Claim C7, as stated, is false: with two identical boxes (duplicate
`MinX`), at outer position `i = 1` the advance completes with `r = 2`, and
slot `k = 0 < r` has `MinX[0] = MinX[1]`, not strictly less.  The input is in
contract: identity is a valid sorter output and the boxes are valid finite
boxes. -/
theorem C7_strict_invariant_counterexample :
    sorterOK [⟨0, 0, 0, 1, 1, 1⟩, ⟨0, 0, 0, 1, 1, 1⟩] (fun k => k) ∧
    (∀ b ∈ ([⟨0, 0, 0, 1, 1, 1⟩, ⟨0, 0, 0, 1, 1, 1⟩] : List AABB),
      boxValid b ∧ coordsFinite b ∧ b.minx < fltMaxV) ∧
    ¬ (∀ k, k < advance [⟨0, 0, 0, 1, 1, 1⟩, ⟨0, 0, 0, 1, 1, 1⟩] (fun x => x)
          (aMinX [⟨0, 0, 0, 1, 1, 1⟩, ⟨0, 0, 0, 1, 1, 1⟩] (fun x => x) 1) 3
          (runningAt [⟨0, 0, 0, 1, 1, 1⟩, ⟨0, 0, 0, 1, 1, 1⟩] (fun x => x) 1) →
        aMinX [⟨0, 0, 0, 1, 1, 1⟩, ⟨0, 0, 0, 1, 1, 1⟩] (fun x => x) k <
          aMinX [⟨0, 0, 0, 1, 1, 1⟩, ⟨0, 0, 0, 1, 1, 1⟩] (fun x => x) 1) := by
  refine ⟨by decide, by decide, by decide⟩

/-- Claim C7 (amended): in the prune kernel's outer loop, for every outer box
at sorted position `i`, after the running-pointer advance completes with
running pointer `r`, every arena slot `k < r` satisfies
`MinX[k] ≤ MinX[i]` — non-strict: when several boxes share the same `MinX`
value, the slot just before `r` has `MinX` equal to `MinX[i]`. -/
theorem C7_running_pointer_bound (l : List AABB) (R : Nat → Nat)
    (hs : sorterOK l R) (hm : ∀ b ∈ l, b.minx < fltMaxV) :
    ∀ i, i < l.length →
      ∀ k, k < advance l R (aMinX l R i) (l.length + 1) (runningAt l R i) →
        aMinX l R k ≤ aMinX l R i := by
  intro i hi k hk
  rw [runningAt_eq, advance_self] at hk
  exact aMinX_mono l R hs hm k i (by omega)

/-- Witness for `C7_running_pointer_bound` on the two identical boxes. -/
theorem C7_running_pointer_bound_witness :
    (sorterOK [⟨0, 0, 0, 1, 1, 1⟩, ⟨0, 0, 0, 1, 1, 1⟩] (fun k => k) ∧
      (∀ b ∈ ([⟨0, 0, 0, 1, 1, 1⟩, ⟨0, 0, 0, 1, 1, 1⟩] : List AABB), b.minx < fltMaxV)) ∧
    (∀ i, i < ([⟨0, 0, 0, 1, 1, 1⟩, ⟨0, 0, 0, 1, 1, 1⟩] : List AABB).length →
      ∀ k, k < advance [⟨0, 0, 0, 1, 1, 1⟩, ⟨0, 0, 0, 1, 1, 1⟩] (fun x => x)
          (aMinX [⟨0, 0, 0, 1, 1, 1⟩, ⟨0, 0, 0, 1, 1, 1⟩] (fun x => x) i)
          (([⟨0, 0, 0, 1, 1, 1⟩, ⟨0, 0, 0, 1, 1, 1⟩] : List AABB).length + 1)
          (runningAt [⟨0, 0, 0, 1, 1, 1⟩, ⟨0, 0, 0, 1, 1, 1⟩] (fun x => x) i) →
        aMinX [⟨0, 0, 0, 1, 1, 1⟩, ⟨0, 0, 0, 1, 1, 1⟩] (fun x => x) k ≤
          aMinX [⟨0, 0, 0, 1, 1, 1⟩, ⟨0, 0, 0, 1, 1, 1⟩] (fun x => x) i) :=
  ⟨⟨by decide, by decide⟩,
    C7_running_pointer_bound [⟨0, 0, 0, 1, 1, 1⟩, ⟨0, 0, 0, 1, 1, 1⟩] (fun x => x)
      (by decide) (by decide)⟩

/-! ### Claim C8 -/

/-- The number of words one `ReportIntersections` do-while emits, as a
function of the mask alone. -/
def reportLen : Nat → Nat → Nat
  | 0, _ => 0
  | fuel + 1, mask =>
    let mask2 := mask &&& (mask - 1)
    if mask2 = 0 then 2 else 2 + reportLen fuel mask2

theorem reportPairs_length (remapId0 : Nat) (remapBase : Nat → Nat) :
    ∀ fuel mask, (reportPairs remapId0 remapBase fuel mask).length = reportLen fuel mask := by
  intro fuel
  induction fuel with
  | zero => intro mask; rfl
  | succ fuel ih =>
    intro mask
    unfold reportPairs reportLen
    by_cases h : mask &&& (mask - 1) = 0
    · simp [h]
    · simp [h, ih]
      omega

set_option maxRecDepth 4000 in
theorem reportLen_le_16 : ∀ mask, mask < 256 → reportLen 32 mask ≤ 16 := by decide

/-- Claim C8: each `ReportIntersections` call writes at most 16 words past
the current end (lane masks are at most 8 bits wide, 2 words per set bit),
and after its `end > high_watermark` check (growing on failure) every word it
writes lies strictly within the allocated capacity: writing starts at offset
`contents.length` of the post-check state and ends at most at its
`cap`. -/
theorem C8_report_within_capacity (st : POBState) (remapId0 : Nat) (remapBase : Nat → Nat)
    (mask : Nat) (hcap : kSlack ≤ st.cap) (hmask : mask < 256) :
    (reportPairs remapId0 remapBase 32 mask).length ≤ 16 ∧
    (ReportIntersections st remapId0 remapBase mask).contents =
      (if st.contents.length > st.cap - kSlack then GrowPairOutputBuffer st
        else st).contents ++ reportPairs remapId0 remapBase 32 mask ∧
    (if st.contents.length > st.cap - kSlack then GrowPairOutputBuffer st
        else st).contents.length + (reportPairs remapId0 remapBase 32 mask).length ≤
      (if st.contents.length > st.cap - kSlack then GrowPairOutputBuffer st else st).cap := by
  have hlen : (reportPairs remapId0 remapBase 32 mask).length ≤ 16 := by
    rw [reportPairs_length]
    exact reportLen_le_16 mask hmask
  refine ⟨hlen, rfl, ?_⟩
  by_cases hg : st.contents.length > st.cap - kSlack
  · rw [if_pos hg]
    unfold GrowPairOutputBuffer kSlack
    simp only
    unfold kSlack at hcap
    omega
  · rw [if_neg hg]
    unfold kSlack at hcap hg
    omega

/-- Witness for `C8_report_within_capacity` at a fresh 16-word buffer with
mask `0b101`. -/
theorem C8_report_within_capacity_witness :
    (kSlack ≤ (⟨[], 16⟩ : POBState).cap ∧ (5 : Nat) < 256) ∧
    ((reportPairs 7 (fun b => b) 32 5).length ≤ 16 ∧
      (ReportIntersections ⟨[], 16⟩ 7 (fun b => b) 5).contents =
        (if ([] : List Nat).length > (16 : Nat) - kSlack then GrowPairOutputBuffer ⟨[], 16⟩
          else ⟨[], 16⟩).contents ++ reportPairs 7 (fun b => b) 32 5 ∧
      (if ([] : List Nat).length > (16 : Nat) - kSlack then GrowPairOutputBuffer ⟨[], 16⟩
          else (⟨[], 16⟩ : POBState)).contents.length +
          (reportPairs 7 (fun b => b) 32 5).length ≤
        (if ([] : List Nat).length > (16 : Nat) - kSlack then GrowPairOutputBuffer ⟨[], 16⟩
          else (⟨[], 16⟩ : POBState)).cap) :=
  ⟨⟨by decide, by decide⟩, C8_report_within_capacity ⟨[], 16⟩ 7 (fun b => b) 5
    (by decide) (by decide)⟩

/-! ### Characterizing the complete-pruning kernel -/

theorem ReportIntersections_contents (st : POBState) (rid : Nat) (base : Nat → Nat)
    (mask : Nat) :
    (ReportIntersections st rid base mask).contents =
      st.contents ++ reportPairs rid base 32 mask := by
  unfold ReportIntersections
  by_cases hg : st.contents.length > st.cap - kSlack <;> simp [hg, GrowPairOutputBuffer]

/-- Reference description of the words the scan for outer slot `i` emits over
the slot interval `[a, b)`: for each slot passing the Y/Z test, in ascending
order, the words `Remap[i], Remap[q]`. -/
def windowWords (l : List AABB) (R : Nat → Nat) (i a b : Nat) : List Nat :=
  ((List.range' a (b - a)).filter (fun q => lanePassYZ l R i q)).flatMap
    (fun q => [R i, R q])

set_option maxHeartbeats 1000000 in
theorem groupEmit (st : POBState) (R : Nat → Nat) (i j : Nat) (c0 c1 c2 c3 : Bool) :
    (if ((if c0 then 1 else 0) + 2 * (if c1 then 1 else 0) + 4 * (if c2 then 1 else 0) +
        8 * (if c3 then 1 else 0) : Nat) ≠ 0 then
      ReportIntersections st (R i) (fun b => R (j + b))
        ((if c0 then 1 else 0) + 2 * (if c1 then 1 else 0) + 4 * (if c2 then 1 else 0) +
          8 * (if c3 then 1 else 0))
    else st).contents =
      st.contents ++
        ((if c0 then [R i, R j] else []) ++
         ((if c1 then [R i, R (j + 1)] else []) ++
          ((if c2 then [R i, R (j + 2)] else []) ++
           (if c3 then [R i, R (j + 3)] else [])))) := by
  cases c0 <;> cases c1 <;> cases c2 <;> cases c3 <;>
    norm_num <;>
    first
      | rfl
      | (rw [ReportIntersections_contents]; rfl)

theorem windowWords_four (l : List AABB) (R : Nat → Nat) (i j : Nat) :
    windowWords l R i j (j + 4) =
      (if lanePassYZ l R i j then [R i, R j] else []) ++
      ((if lanePassYZ l R i (j + 1) then [R i, R (j + 1)] else []) ++
       ((if lanePassYZ l R i (j + 2) then [R i, R (j + 2)] else []) ++
        (if lanePassYZ l R i (j + 3) then [R i, R (j + 3)] else []))) := by
  unfold windowWords
  have h4 : j + 4 - j = 4 := by omega
  rw [h4]
  have hr : List.range' j 4 = [j, j + 1, j + 2, j + 3] := rfl
  rw [hr]
  by_cases b0 : lanePassYZ l R i j <;>
    by_cases b1 : lanePassYZ l R i (j + 1) <;>
      by_cases b2 : lanePassYZ l R i (j + 2) <;>
        by_cases b3 : lanePassYZ l R i (j + 3) <;>
          simp [b0, b1, b2, b3, List.filter_cons]

theorem mainGroup_contents (l : List AABB) (R : Nat → Nat) (i j : Nat) (st : POBState) :
    (if mainMask l R i j ≠ 0 then
        ReportIntersections st (R i) (fun b => R (j + b)) (mainMask l R i j)
      else st).contents = st.contents ++ windowWords l R i j (j + 4) := by
  rw [windowWords_four]
  unfold mainMask
  exact groupEmit st R i j _ _ _ _

theorem tailWords_four (l : List AABB) (R : Nat → Nat) (i : Nat) (maxLim : Int) (j : Nat) :
    ((List.range' j 4).filter (fun q => tailLane l R i maxLim q)).flatMap
        (fun q => [R i, R q]) =
      (if tailLane l R i maxLim j then [R i, R j] else []) ++
      ((if tailLane l R i maxLim (j + 1) then [R i, R (j + 1)] else []) ++
       ((if tailLane l R i maxLim (j + 2) then [R i, R (j + 2)] else []) ++
        (if tailLane l R i maxLim (j + 3) then [R i, R (j + 3)] else []))) := by
  have hr : List.range' j 4 = [j, j + 1, j + 2, j + 3] := rfl
  rw [hr]
  by_cases b0 : tailLane l R i maxLim j <;>
    by_cases b1 : tailLane l R i maxLim (j + 1) <;>
      by_cases b2 : tailLane l R i maxLim (j + 2) <;>
        by_cases b3 : tailLane l R i maxLim (j + 3) <;>
          simp [b0, b1, b2, b3, List.filter_cons]

theorem tailGroup_contents (l : List AABB) (R : Nat → Nat) (i : Nat) (maxLim : Int)
    (j : Nat) (st : POBState) :
    (if tailMask l R i j maxLim ≠ 0 then
        ReportIntersections st (R i) (fun b => R (j + b)) (tailMask l R i j maxLim)
      else st).contents =
      st.contents ++ ((List.range' j 4).filter (fun q => tailLane l R i maxLim q)).flatMap
        (fun q => [R i, R q]) := by
  rw [tailWords_four]
  unfold tailMask
  exact groupEmit st R i j _ _ _ _

/-- The end of the X window for outer slot `p`: the first arena slot whose
`MinX` exceeds `MaxX[p]`.  The padding sentinel guarantees it exists at or
before slot `N`, so a search bound of `N + 1` suffices. -/
def windowEndGo (l : List AABB) (R : Nat → Nat) (maxLim : Int) : Nat → Nat → Nat
  | 0, k => k
  | fuel + 1, k => if maxLim < aMinX l R k then k else windowEndGo l R maxLim fuel (k + 1)

def windowEnd (l : List AABB) (R : Nat → Nat) (p : Nat) : Nat :=
  windowEndGo l R (aMaxX l R p) (l.length + 1) 0

theorem windowEndGo_eq (l : List AABB) (R : Nat → Nat) (maxLim : Int) :
    ∀ (fuel k S : Nat), k ≤ S → (∀ m, k ≤ m → m < S → ¬ maxLim < aMinX l R m) →
      maxLim < aMinX l R S → S ≤ k + fuel → windowEndGo l R maxLim fuel k = S := by
  intro fuel
  induction fuel with
  | zero =>
    intro k S h1 _ _ h4
    have : S = k := by omega
    rw [this]
    rfl
  | succ fuel ih =>
    intro k S h1 h2 h3 h4
    unfold windowEndGo
    by_cases hc : maxLim < aMinX l R k
    · rw [if_pos hc]
      rcases Nat.lt_or_ge k S with h | h
      · exact absurd hc (h2 k (le_refl k) h)
      · omega
    · rw [if_neg hc]
      have hne : k ≠ S := fun he => hc (he ▸ h3)
      exact ih (k + 1) S (by omega) (fun m hm1 hm2 => h2 m (by omega) hm2) h3 (by omega)

theorem windowEnd_spec (l : List AABB) (R : Nat → Nat) (hs : sorterOK l R)
    (hm : ∀ b ∈ l, b.minx < fltMaxV) (hf : ∀ b ∈ l, coordsFinite b)
    (hv : ∀ b ∈ l, boxValid b) (p : Nat) (hp : p < l.length) :
    (∀ k, k < windowEnd l R p → aMinX l R k ≤ aMaxX l R p) ∧
    (∀ k, windowEnd l R p ≤ k → aMaxX l R p < aMinX l R k) ∧
    windowEnd l R p ≤ l.length ∧ p < windowEnd l R p := by
  have hmaxle : aMaxX l R p ≤ infV := aMaxX_le_infV l R hs hm hf p hp
  have hex : ∃ k, aMaxX l R p < aMinX l R k := by
    refine ⟨l.length, ?_⟩
    rw [aMinX_sentinel l R l.length (le_refl _)]
    unfold infV at hmaxle
    omega
  have hfle : Nat.find hex ≤ l.length := Nat.find_le (by
    rw [aMinX_sentinel l R l.length (le_refl _)]
    unfold infV at hmaxle
    omega)
  have heq : windowEnd l R p = Nat.find hex := by
    unfold windowEnd
    exact windowEndGo_eq l R (aMaxX l R p) (l.length + 1) 0 (Nat.find hex) (by omega)
      (fun m _ hm2 => Nat.find_min hex hm2) (Nat.find_spec hex) (by omega)
  rw [heq]
  have hmono := aMinX_mono l R hs hm
  refine ⟨?_, ?_, hfle, ?_⟩
  · intro k hk
    have := Nat.find_min hex hk
    omega
  · intro k hk
    have h1 := Nat.find_spec hex
    have h2 := hmono (Nat.find hex) k hk
    omega
  · rcases Nat.lt_or_ge p (Nat.find hex) with h | h
    · exact h
    · exfalso
      have h1 := Nat.find_spec hex
      have h2 := hmono (Nat.find hex) p h
      have h3 := aMinX_le_aMaxX l R hs hm hv p hp
      omega

theorem windowWords_append (l : List AABB) (R : Nat → Nat) (i a b c : Nat)
    (hab : a ≤ b) (hbc : b ≤ c) :
    windowWords l R i a b ++ windowWords l R i b c = windowWords l R i a c := by
  unfold windowWords
  rw [← List.flatMap_append, ← List.filter_append]
  have hr : List.range' a (b - a) ++ List.range' b (c - b) = List.range' a (c - a) := by
    have h := List.range'_append a (b - a) (c - b) 1
    simp only [Nat.one_mul] at h
    have h2 : a + (b - a) = b := by omega
    rw [h2] at h
    rw [h]
    congr 1
    omega
  rw [hr]

theorem kernelMainLoop_eq (l : List AABB) (R : Nat → Nat) (i : Nat) (maxLim : Int)
    (E : Nat)
    (hE1 : ∀ k, k < E → aMinX l R k ≤ maxLim)
    (hE2 : ∀ k, E ≤ k → maxLim < aMinX l R k) :
    ∀ (fuel j : Nat) (st : POBState), j ≤ E → E ≤ j + 4 * fuel + 3 →
      ∃ J c, kernelMainLoop l R i maxLim fuel j st =
          (J, ⟨st.contents ++ windowWords l R i j J, c⟩) ∧
        j ≤ J ∧ J ≤ E ∧ E ≤ J + 3 := by
  intro fuel
  induction fuel with
  | zero =>
    intro j st hj hfuel
    refine ⟨j, st.cap, ?_, le_refl j, hj, by omega⟩
    unfold kernelMainLoop windowWords
    simp
  | succ fuel ih =>
    intro j st hj hfuel
    unfold kernelMainLoop
    by_cases hc : aMinX l R (j + 3) ≤ maxLim
    · rw [if_pos hc]
      have hlt : j + 3 < E := by
        rcases Nat.lt_or_ge (j + 3) E with h | h
        · exact h
        · exact absurd (hE2 (j + 3) h) (by omega)
      obtain ⟨J, c, hrun, hjJ, hJE, hEJ⟩ := ih (j + 4)
        (if mainMask l R i j ≠ 0 then
          ReportIntersections st (R i) (fun b => R (j + b)) (mainMask l R i j)
        else st) (by omega) (by omega)
      refine ⟨J, c, ?_, by omega, hJE, hEJ⟩
      rw [hrun]
      have hgc := mainGroup_contents l R i j st
      rw [hgc]
      rw [List.append_assoc, windowWords_append l R i j (j + 4) J (by omega) (by omega)]
    · rw [if_neg hc]
      have hEle : E ≤ j + 3 := by
        rcases Nat.lt_or_ge (j + 3) E with h | h
        · exact absurd (hE1 (j + 3) h) hc
        · omega
      refine ⟨j, st.cap, ?_, le_refl j, hj, hEle⟩
      unfold windowWords
      simp

theorem tailWindow_eq (l : List AABB) (R : Nat → Nat) (i : Nat) (maxLim : Int)
    (j E : Nat)
    (hE1 : ∀ k, k < E → aMinX l R k ≤ maxLim)
    (hE2 : ∀ k, E ≤ k → maxLim < aMinX l R k)
    (hjE : j ≤ E) (hEj4 : E ≤ j + 4) :
    ((List.range' j 4).filter (fun q => tailLane l R i maxLim q)).flatMap
        (fun q => [R i, R q]) = windowWords l R i j E := by
  have hsplit : List.range' j 4 = List.range' j (E - j) ++ List.range' E (j + 4 - E) := by
    have h := List.range'_append j (E - j) (j + 4 - E) 1
    simp only [Nat.one_mul] at h
    have h2 : j + (E - j) = E := by omega
    rw [h2] at h
    rw [h]
    congr 1
    omega
  rw [hsplit, List.filter_append]
  have hnil : (List.range' E (j + 4 - E)).filter (fun q => tailLane l R i maxLim q) = [] := by
    rw [List.filter_eq_nil_iff]
    intro k hk
    have hk2 : E ≤ k := by
      have := List.mem_range'_1.mp hk
      omega
    have hgt := hE2 k hk2
    have hfalse : tailLane l R i maxLim k = false := by
      unfold tailLane
      have hd : decide (aMinX l R k > maxLim) = true := decide_eq_true (by omega)
      rw [hd]
      rfl
    simp [hfalse]
  have hcongr : (List.range' j (E - j)).filter (fun q => tailLane l R i maxLim q) =
      (List.range' j (E - j)).filter (fun q => lanePassYZ l R i q) := by
    apply List.filter_congr
    intro k hk
    have hk2 : k < E := by
      have := List.mem_range'_1.mp hk
      omega
    have := hE1 k hk2
    unfold tailLane
    have hout : ¬ aMinX l R k > maxLim := by omega
    simp [hout]
  rw [hnil, hcongr, List.append_nil]
  unfold windowWords
  rfl

theorem outerStep_contents (l : List AABB) (R : Nat → Nat) (hs : sorterOK l R)
    (hm : ∀ b ∈ l, b.minx < fltMaxV) (hf : ∀ b ∈ l, coordsFinite b)
    (hv : ∀ b ∈ l, boxValid b) (p : Nat) (hp : p < l.length) (st : POBState) :
    (kernelTail l R p (aMaxX l R p)
        (kernelMainLoop l R p (aMaxX l R p) (l.length + 1) (p + 1) st).1
        (kernelMainLoop l R p (aMaxX l R p) (l.length + 1) (p + 1) st).2).contents =
      st.contents ++ windowWords l R p (p + 1) (windowEnd l R p) := by
  obtain ⟨hE1, hE2, hElen, hpE⟩ := windowEnd_spec l R hs hm hf hv p hp
  obtain ⟨J, c, hrun, hjJ, hJE, hEJ⟩ := kernelMainLoop_eq l R p (aMaxX l R p)
    (windowEnd l R p) hE1 hE2 (l.length + 1) (p + 1) st (by omega) (by omega)
  rw [hrun]
  unfold kernelTail
  by_cases hc : aMinX l R J ≤ aMaxX l R p
  · rw [if_pos hc]
    rw [tailGroup_contents l R p (aMaxX l R p) J _]
    rw [tailWindow_eq l R p (aMaxX l R p) J (windowEnd l R p) hE1 hE2 (by omega) (by omega)]
    show st.contents ++ windowWords l R p (p + 1) J ++ windowWords l R p J (windowEnd l R p)
      = st.contents ++ windowWords l R p (p + 1) (windowEnd l R p)
    rw [List.append_assoc, windowWords_append l R p (p + 1) J _ (by omega) (by omega)]
  · rw [if_neg hc]
    have hEJ2 : windowEnd l R p ≤ J := by
      rcases Nat.lt_or_ge J (windowEnd l R p) with h | h
      · exact absurd (hE1 J h) hc
      · exact h
    have hJE2 : J = windowEnd l R p := by omega
    rw [← hJE2]

theorem kernelOuter_contents (l : List AABB) (R : Nat → Nat) (hs : sorterOK l R)
    (hm : ∀ b ∈ l, b.minx < fltMaxV) (hf : ∀ b ∈ l, coordsFinite b)
    (hv : ∀ b ∈ l, boxValid b) :
    ∀ (fuel i : Nat) (st : POBState), l.length ≤ i + fuel →
      (kernelOuter l R fuel i i st).contents =
        st.contents ++ (List.range' i (l.length - 1 - i)).flatMap
          (fun p => windowWords l R p (p + 1) (windowEnd l R p)) := by
  intro fuel
  induction fuel with
  | zero =>
    intro i st hfuel
    have h0 : l.length - 1 - i = 0 := by omega
    rw [h0]
    simp [kernelOuter]
  | succ fuel ih =>
    intro i st hfuel
    unfold kernelOuter
    by_cases hi : i < l.length
    · rw [if_pos hi]
      simp only [advance_self]
      by_cases hbreak : i + 1 ≥ l.length
      · rw [if_pos hbreak]
        have h0 : l.length - 1 - i = 0 := by omega
        rw [h0]
        simp
      · rw [if_neg hbreak]
        rw [ih (i + 1) _ (by omega)]
        rw [outerStep_contents l R hs hm hf hv i hi st]
        have hcons : List.range' i (l.length - 1 - i) =
            i :: List.range' (i + 1) (l.length - 1 - (i + 1)) := by
          have h5 : l.length - 1 - i = (l.length - 1 - (i + 1)) + 1 := by omega
          rw [h5, List.range'_succ]
        rw [hcons, List.flatMap_cons, ← List.append_assoc]
    · rw [if_neg hi]
      have h0 : l.length - 1 - i = 0 := by omega
      rw [h0]
      simp

/-- Reference description of the complete prune's output stream: for each
outer sorted position `p` (the last one breaks out before scanning), the
window-filtered pairs `Remap[p], Remap[q]` for `q ∈ (p, windowEnd p)`. -/
def refWords (l : List AABB) (R : Nat → Nat) : List Nat :=
  (List.range (l.length - 1)).flatMap
    (fun p => windowWords l R p (p + 1) (windowEnd l R p))

theorem CompleteBoxPruning_data (l : List AABB) (R : Nat → Nat) (c : Container)
    (hne : l.length ≠ 0) (hs : sorterOK l R) (hm : ∀ b ∈ l, b.minx < fltMaxV)
    (hf : ∀ b ∈ l, coordsFinite b) (hv : ∀ b ∈ l, boxValid b) :
    ∃ out, CompleteBoxPruning l R c = some out ∧
      out.data = (mkPOB c).contents ++ refWords l R := by
  unfold CompleteBoxPruning
  rw [if_neg hne]
  refine ⟨_, rfl, ?_⟩
  unfold finishPOB
  simp only
  rw [kernelOuter_contents l R hs hm hf hv (l.length + 1) 0 (mkPOB c) (by omega)]
  unfold refWords
  rw [List.range_eq_range']
  congr 1

/-! ### Pairing up the flat output stream -/

/-- Group the flat `[id0, id1, id0, id1, ...]` stream into pairs. -/
def pairUp : List Nat → List (Nat × Nat)
  | a :: b :: rest => (a, b) :: pairUp rest
  | _ => []

theorem pairUp_append (xs ys : List Nat) (h : xs.length % 2 = 0) :
    pairUp (xs ++ ys) = pairUp xs ++ pairUp ys := by
  induction xs using pairUp.induct with
  | case1 a b rest ih =>
    simp only [List.cons_append, pairUp, List.append_eq]
    rw [ih (by simp at h; omega)]
  | case2 xs hx =>
    rcases xs with _ | ⟨a, _ | ⟨b, t⟩⟩
    · simp [pairUp]
    · simp at h
    · exact absurd rfl (hx a b t)

theorem pairUp_pair_blocks (f g : Nat → Nat) :
    ∀ qs : List Nat, pairUp (qs.flatMap (fun q => [f q, g q])) =
      qs.map (fun q => (f q, g q)) := by
  intro qs
  induction qs with
  | nil => rfl
  | cons a t ih =>
    simp only [List.flatMap_cons, List.map_cons, List.cons_append, List.nil_append]
    show (f a, g a) :: pairUp (t.flatMap (fun q => [f q, g q])) = _
    rw [ih]

theorem length_pair_blocks (f g : Nat → Nat) :
    ∀ qs : List Nat, (qs.flatMap (fun q => [f q, g q])).length = 2 * qs.length := by
  intro qs
  induction qs with
  | nil => rfl
  | cons a t ih =>
    simp only [List.flatMap_cons, List.length_append, List.length_cons, ih]
    simp
    omega

theorem windowWords_length_even (l : List AABB) (R : Nat → Nat) (i a b : Nat) :
    (windowWords l R i a b).length % 2 = 0 := by
  unfold windowWords
  rw [length_pair_blocks]
  omega

/-- The complete prune's output, grouped into sorted-position pairs. -/
def refPairsC (l : List AABB) (R : Nat → Nat) : List (Nat × Nat) :=
  (List.range (l.length - 1)).flatMap
    (fun p => ((List.range' (p + 1) (windowEnd l R p - (p + 1))).filter
        (fun q => lanePassYZ l R p q)).map (fun q => (R p, R q)))

theorem pairUp_refWords (l : List AABB) (R : Nat → Nat) :
    pairUp (refWords l R) = refPairsC l R := by
  unfold refWords refPairsC
  induction List.range (l.length - 1) with
  | nil => rfl
  | cons p t ih =>
    rw [List.flatMap_cons, List.flatMap_cons,
      pairUp_append _ _ (windowWords_length_even l R p (p + 1) (windowEnd l R p)), ih]
    congr 1
    unfold windowWords
    rw [pairUp_pair_blocks]

theorem refWords_length_even (l : List AABB) (R : Nat → Nat) :
    (refWords l R).length % 2 = 0 := by
  unfold refWords
  induction List.range (l.length - 1) with
  | nil => rfl
  | cons p t ih =>
    rw [List.flatMap_cons, List.length_append]
    have h1 := windowWords_length_even l R p (p + 1) (windowEnd l R p)
    omega

theorem nodup_refPairsC (l : List AABB) (R : Nat → Nat) (hs : sorterOK l R)
    (hm : ∀ b ∈ l, b.minx < fltMaxV) (hf : ∀ b ∈ l, coordsFinite b)
    (hv : ∀ b ∈ l, boxValid b) :
    (refPairsC l R).Nodup := by
  unfold refPairsC
  rw [List.flatMap_def, List.nodup_flatten]
  constructor
  · intro lp hlp
    rw [List.mem_map] at hlp
    obtain ⟨p, hp, rfl⟩ := hlp
    rw [List.mem_range] at hp
    have hspec := windowEnd_spec l R hs hm hf hv p (by omega)
    apply List.Nodup.map_on
    · intro x hx y hy hxy
      rw [List.mem_filter] at hx hy
      have hx2 := List.mem_range'_1.mp hx.1
      have hy2 := List.mem_range'_1.mp hy.1
      have h1 : R x = R y := congrArg Prod.snd hxy
      exact hs.2.1 x (by omega) y (by omega) h1
    · exact (List.nodup_range' _ _).filter _
  · rw [List.pairwise_map]
    apply List.Pairwise.imp_of_mem ?_ (List.pairwise_lt_range (l.length - 1))
    intro p p' hp hp' hlt
    rw [List.mem_range] at hp hp'
    rw [List.disjoint_left]
    intro x hx hx'
    rw [List.mem_map] at hx hx'
    obtain ⟨q, _, hxq⟩ := hx
    obtain ⟨q', _, hxq'⟩ := hx'
    have e1 := congrArg Prod.fst hxq
    have e2 := congrArg Prod.fst hxq'
    simp only at e1 e2
    have h1 : R p = R p' := e1.trans e2.symm
    have := hs.2.1 p (by omega) p' (by omega) h1
    omega

theorem count_refPairsC (l : List AABB) (R : Nat → Nat) (hs : sorterOK l R)
    (hm : ∀ b ∈ l, b.minx < fltMaxV) (hf : ∀ b ∈ l, coordsFinite b)
    (hv : ∀ b ∈ l, boxValid b) (p q : Nat) (hp : p < l.length) (hq : q < l.length) :
    (refPairsC l R).count (R p, R q) =
      if (p < q ∧ q < windowEnd l R p ∧ lanePassYZ l R p q = true) then 1 else 0 := by
  split_ifs with hpred
  · apply count_one_of_mem_nodup (nodup_refPairsC l R hs hm hf hv)
    unfold refPairsC
    rw [List.mem_flatMap]
    refine ⟨p, List.mem_range.mpr (by omega), ?_⟩
    rw [List.mem_map]
    refine ⟨q, ?_, rfl⟩
    rw [List.mem_filter]
    refine ⟨List.mem_range'_1.mpr (by omega), hpred.2.2⟩
  · rw [List.count_eq_zero]
    intro hmem
    unfold refPairsC at hmem
    rw [List.mem_flatMap] at hmem
    obtain ⟨p', hp', hrow⟩ := hmem
    rw [List.mem_range] at hp'
    rw [List.mem_map] at hrow
    obtain ⟨q', hq', heq⟩ := hrow
    rw [List.mem_filter] at hq'
    have hq'r := List.mem_range'_1.mp hq'.1
    have hspec := windowEnd_spec l R hs hm hf hv p' (by omega)
    have hfst : R p' = R p := congrArg Prod.fst heq
    have hsnd : R q' = R q := congrArg Prod.snd heq
    have hpp : p' = p := hs.2.1 p' (by omega) p (by omega) hfst
    have hqq : q' = q := hs.2.1 q' (by omega) q (by omega) hsnd
    subst hpp
    subst hqq
    exact hpred ⟨by omega, by omega, hq'.2⟩

theorem aMinX_real (l : List AABB) (R : Nat → Nat) (p : Nat) (hp : p < l.length) :
    aMinX l R p = (l.getD (R p) AABB0).minx := by
  unfold aMinX
  rw [if_pos hp]
  rfl

theorem aMaxX_real (l : List AABB) (R : Nat → Nat) (p : Nat) (hp : p < l.length) :
    aMaxX l R p = (l.getD (R p) AABB0).maxx := by
  unfold aMaxX
  rw [if_pos hp]
  rfl

theorem lanePassYZ_iff (l : List AABB) (R : Nat → Nat) (p q : Nat)
    (hp : p < l.length) (hq : q < l.length) :
    lanePassYZ l R p q = true ↔
      ((l.getD (R p) AABB0).miny ≤ (l.getD (R q) AABB0).maxy ∧
       (l.getD (R q) AABB0).miny ≤ (l.getD (R p) AABB0).maxy ∧
       (l.getD (R p) AABB0).minz ≤ (l.getD (R q) AABB0).maxz ∧
       (l.getD (R q) AABB0).minz ≤ (l.getD (R p) AABB0).maxz) := by
  unfold lanePassYZ aMinY aMaxY aMinZ aMaxZ arenaBox
  rw [if_pos hp, if_pos hp, if_pos hq, if_pos hq, if_pos hp, if_pos hp, if_pos hq, if_pos hq]
  simp only [Bool.and_eq_true, decide_eq_true_eq, ge_iff_le]
  constructor
  · intro h
    exact ⟨h.1.1.1, h.1.1.2, h.1.2, h.2⟩
  · intro h
    exact ⟨⟨⟨h.1, h.2.1⟩, h.2.2.1⟩, h.2.2.2⟩

/-- Claim C1 (amended): for every input list of `N ≥ 1` AABBs with non-NaN
coordinates, `min ≤ max` on each axis, and every `min.x` strictly below
`FLT_MAX` (so that no user box collides with the sort sentinel), and every
sorter output satisfying the §4.B contract, `CompleteBoxPruning` emits, for
every pair of distinct caller indices `(i, j)` whose boxes satisfy the
inclusive overlap predicate on all three axes, exactly one of `(i, j)` or
`(j, i)`; and every pair it emits satisfies that predicate. -/
theorem C1_complete_exact (l : List AABB) (R : Nat → Nat)
    (hne : l.length ≠ 0) (hs : sorterOK l R)
    (hv : ∀ b ∈ l, boxValid b) (hf : ∀ b ∈ l, coordsFinite b)
    (hm : ∀ b ∈ l, b.minx < fltMaxV) :
    ∃ out, CompleteBoxPruning l R ⟨[], 0⟩ = some out ∧
      (∀ pr ∈ pairUp out.data, pr.1 < l.length ∧ pr.2 < l.length ∧ pr.1 ≠ pr.2 ∧
        overlapB (l.getD pr.1 AABB0) (l.getD pr.2 AABB0)) ∧
      (∀ a b, a < l.length → b < l.length → a ≠ b →
        overlapB (l.getD a AABB0) (l.getD b AABB0) →
        (pairUp out.data).count (a, b) + (pairUp out.data).count (b, a) = 1) := by
  obtain ⟨out, hout, hdata⟩ := CompleteBoxPruning_data l R ⟨[], 0⟩ hne hs hm hf hv
  have hempty : (mkPOB ⟨[], 0⟩).contents = [] := rfl
  rw [hempty, List.nil_append] at hdata
  have hpairs : pairUp out.data = refPairsC l R := by rw [hdata, pairUp_refWords]
  refine ⟨out, hout, ?_, ?_⟩
  · intro pr hpr
    rw [hpairs] at hpr
    unfold refPairsC at hpr
    rw [List.mem_flatMap] at hpr
    obtain ⟨p, hp, hrow⟩ := hpr
    rw [List.mem_range] at hp
    rw [List.mem_map] at hrow
    obtain ⟨q, hqf, heq⟩ := hrow
    rw [List.mem_filter] at hqf
    have hqr := List.mem_range'_1.mp hqf.1
    have hplen : p < l.length := by omega
    have hspec := windowEnd_spec l R hs hm hf hv p hplen
    have hqlen : q < l.length := by omega
    subst heq
    dsimp only
    have hRp := sorter_lt l R hs hm p hplen
    have hRq := sorter_lt l R hs hm q hqlen
    refine ⟨hRp, hRq, ?_, ?_⟩
    · intro hcon
      have := hs.2.1 p (by omega) q (by omega) hcon
      omega
    · have hX1 : aMinX l R q ≤ aMaxX l R p := hspec.1 q (by omega)
      have hX0 : aMinX l R p ≤ aMinX l R q := aMinX_mono l R hs hm p q (by omega)
      have hvq : (l.getD (R q) AABB0).minx ≤ (l.getD (R q) AABB0).maxx :=
        (hv _ (getD_mem_of_lt l (R q) hRq)).1
      rw [aMinX_real l R q hqlen, aMaxX_real l R p hplen] at hX1
      rw [aMinX_real l R p hplen, aMinX_real l R q hqlen] at hX0
      have hyz := (lanePassYZ_iff l R p q hplen hqlen).mp hqf.2
      exact ⟨by omega, hX1, hyz.1, hyz.2.1, hyz.2.2.1, hyz.2.2.2⟩
  · intro a b ha hb hab hov
    obtain ⟨p, hp, hpa⟩ := sorter_surj l R hs hm a ha
    obtain ⟨q, hq, hqb⟩ := sorter_surj l R hs hm b hb
    subst hpa
    subst hqb
    rw [hpairs, count_refPairsC l R hs hm hf hv p q hp hq,
      count_refPairsC l R hs hm hf hv q p hq hp]
    have hpq : p ≠ q := fun h => hab (by rw [h])
    obtain ⟨ho1, ho2, ho3, ho4, ho5, ho6⟩ := hov
    have hlp := (lanePassYZ_iff l R p q hp hq).mpr ⟨ho3, ho4, ho5, ho6⟩
    have hlq := (lanePassYZ_iff l R q p hq hp).mpr ⟨ho4, ho3, ho6, ho5⟩
    have hspecp := windowEnd_spec l R hs hm hf hv p hp
    have hspecq := windowEnd_spec l R hs hm hf hv q hq
    rcases Nat.lt_or_ge p q with hlt | hge
    · have hqwin : q < windowEnd l R p := by
        by_contra hcon
        have hgt := hspecp.2.1 q (by omega)
        rw [aMaxX_real l R p hp, aMinX_real l R q hq] at hgt
        omega
      rw [if_pos ⟨hlt, hqwin, hlp⟩, if_neg (fun hcc => absurd hcc.1 (by omega))]
    · have hqp : q < p := by omega
      have hpwin : p < windowEnd l R q := by
        by_contra hcon
        have hgt := hspecq.2.1 p (by omega)
        rw [aMaxX_real l R q hq, aMinX_real l R p hp] at hgt
        omega
      rw [if_neg (fun hcc => absurd hcc.1 (by omega)), if_pos ⟨hqp, hpwin, hlq⟩]

/-- A box whose six coordinates are all the rank of `+∞` (a non-NaN float,
with `min = max` on each axis). -/
def infBoxC : AABB := ⟨infV, infV, infV, infV, infV, infV⟩

def cexListC : List AABB := [infBoxC, infBoxC]

/-- The only `Remap` satisfying the sorter contract for `cexListC`: the
appended sentinel key `FLT_MAX` is strictly below the boxes' `+∞` keys, so
the sorter must place index 2 first. -/
def cexRemapC : Nat → Nat :=
  fun i => if i = 0 then 2 else if i = 1 then 0 else if i = 2 then 1 else i

/-- Claim C1, original statement, is false: the two all-`+∞` boxes of
`cexListC` have non-NaN coordinates and `min ≤ max` per axis, and they
overlap each other, yet with the (unique) contract-satisfying sorter output
`CompleteBoxPruning` returns an empty pair list — neither `(0, 1)` nor
`(1, 0)` is emitted. The sentinel trick breaks when a `min.x` reaches
`FLT_MAX`, which is why the amended claim adds that restriction. -/
theorem C1_unrestricted_counterexample :
    cexListC.length ≠ 0 ∧ sorterOK cexListC cexRemapC ∧
    (∀ b ∈ cexListC, boxValid b) ∧ (∀ b ∈ cexListC, coordsFinite b) ∧
    (0 : Nat) ≠ 1 ∧ overlapB (cexListC.getD 0 AABB0) (cexListC.getD 1 AABB0) ∧
    CompleteBoxPruning cexListC cexRemapC ⟨[], 0⟩ =
      some { data := [], cap := 16 } ∧
    (pairUp ([] : List Nat)).count ((0 : Nat), (1 : Nat)) +
      (pairUp ([] : List Nat)).count ((1 : Nat), (0 : Nat)) = 0 := by
  exact ⟨by decide, by decide, by decide, by decide, by decide, by decide,
    rfl, by decide⟩

def wlistC : List AABB := [⟨0, 0, 0, 2, 2, 2⟩, ⟨1, 1, 1, 3, 3, 3⟩]

def widC : Nat → Nat := id

/-- Witness for C1: two overlapping boxes with the identity sorter output
satisfy every hypothesis of `C1_complete_exact`, and the theorem applies. -/
theorem C1_complete_exact_witness :
    (wlistC.length ≠ 0 ∧ sorterOK wlistC widC ∧ (∀ b ∈ wlistC, boxValid b) ∧
      (∀ b ∈ wlistC, coordsFinite b) ∧ (∀ b ∈ wlistC, b.minx < fltMaxV)) ∧
    (∃ out, CompleteBoxPruning wlistC widC ⟨[], 0⟩ = some out ∧
      (∀ pr ∈ pairUp out.data, pr.1 < wlistC.length ∧ pr.2 < wlistC.length ∧
        pr.1 ≠ pr.2 ∧
        overlapB (wlistC.getD pr.1 AABB0) (wlistC.getD pr.2 AABB0)) ∧
      (∀ a b, a < wlistC.length → b < wlistC.length → a ≠ b →
        overlapB (wlistC.getD a AABB0) (wlistC.getD b AABB0) →
        (pairUp out.data).count (a, b) + (pairUp out.data).count (b, a) = 1)) :=
  ⟨⟨by decide, by decide, by decide, by decide, by decide⟩,
    C1_complete_exact wlistC widC (by decide) (by decide) (by decide)
      (by decide) (by decide)⟩

/-- Claim C4: for every valid input (the hypotheses of the amended C1), no
self-pair `(i, i)` ever appears in the output, and indeed the inner scan for
the outer box at sorted position `p` starts at position `p + 1`: the
running-pointer advance stops at the first slot whose `MinX` is not below
`MinLimit` — slot `p` itself — and post-increments once past it. -/
theorem C4_no_self_pairs (l : List AABB) (R : Nat → Nat)
    (hne : l.length ≠ 0) (hs : sorterOK l R)
    (hv : ∀ b ∈ l, boxValid b) (hf : ∀ b ∈ l, coordsFinite b)
    (hm : ∀ b ∈ l, b.minx < fltMaxV) :
    (∀ p, advance l R (aMinX l R p) (l.length + 1) p = p + 1) ∧
    ∃ out, CompleteBoxPruning l R ⟨[], 0⟩ = some out ∧
      ∀ i, (i, i) ∉ pairUp out.data := by
  constructor
  · intro p
    exact advance_self l R l.length p
  · obtain ⟨out, hout, hdata⟩ := CompleteBoxPruning_data l R ⟨[], 0⟩ hne hs hm hf hv
    refine ⟨out, hout, ?_⟩
    intro i hmem
    have hempty : (mkPOB (⟨[], 0⟩ : Container)).contents = [] := rfl
    rw [hdata, hempty, List.nil_append, pairUp_refWords] at hmem
    unfold refPairsC at hmem
    rw [List.mem_flatMap] at hmem
    obtain ⟨p, hp, hrow⟩ := hmem
    rw [List.mem_range] at hp
    rw [List.mem_map] at hrow
    obtain ⟨q, hqf, heq⟩ := hrow
    rw [List.mem_filter] at hqf
    have hqr := List.mem_range'_1.mp hqf.1
    rw [Prod.mk.injEq] at heq
    have hRpq : R p = R q := heq.1.trans heq.2.symm
    have hspec := windowEnd_spec l R hs hm hf hv p (by omega)
    have := hs.2.1 p (by omega) q (by omega) hRpq
    omega

/-- Witness for C4 at the two-box input of the C1 witness. -/
theorem C4_no_self_pairs_witness :
    (wlistC.length ≠ 0 ∧ sorterOK wlistC widC ∧ (∀ b ∈ wlistC, boxValid b) ∧
      (∀ b ∈ wlistC, coordsFinite b) ∧ (∀ b ∈ wlistC, b.minx < fltMaxV)) ∧
    ((∀ p, advance wlistC widC (aMinX wlistC widC p) (wlistC.length + 1) p = p + 1) ∧
     ∃ out, CompleteBoxPruning wlistC widC ⟨[], 0⟩ = some out ∧
       ∀ i, (i, i) ∉ pairUp out.data) :=
  ⟨⟨by decide, by decide, by decide, by decide, by decide⟩,
    C4_no_self_pairs wlistC widC (by decide) (by decide) (by decide)
      (by decide) (by decide)⟩

/-- Claim C10: under the amended-C1 validity hypotheses (every `min.x`
strictly below `FLT_MAX`), `Remap` restricted to `[0, N)` is a permutation
of `[0, N)` (it stays below `N` and hits every index), and every `uint32`
word emitted by `CompleteBoxPruning` is a valid caller index in `[0, N)`. -/
theorem C10_output_words_in_range (l : List AABB) (R : Nat → Nat)
    (hne : l.length ≠ 0) (hs : sorterOK l R)
    (hv : ∀ b ∈ l, boxValid b) (hf : ∀ b ∈ l, coordsFinite b)
    (hm : ∀ b ∈ l, b.minx < fltMaxV) :
    (∀ p, p < l.length → R p < l.length) ∧
    (∀ a, a < l.length → ∃ p, p < l.length ∧ R p = a) ∧
    ∃ out, CompleteBoxPruning l R ⟨[], 0⟩ = some out ∧
      ∀ w ∈ out.data, w < l.length := by
  refine ⟨sorter_lt l R hs hm, sorter_surj l R hs hm, ?_⟩
  obtain ⟨out, hout, hdata⟩ := CompleteBoxPruning_data l R ⟨[], 0⟩ hne hs hm hf hv
  refine ⟨out, hout, ?_⟩
  intro w hw
  have hempty : (mkPOB (⟨[], 0⟩ : Container)).contents = [] := rfl
  rw [hdata, hempty, List.nil_append] at hw
  unfold refWords at hw
  rw [List.mem_flatMap] at hw
  obtain ⟨p, hp, hword⟩ := hw
  rw [List.mem_range] at hp
  unfold windowWords at hword
  rw [List.mem_flatMap] at hword
  obtain ⟨q, hqf, hwq⟩ := hword
  rw [List.mem_filter] at hqf
  have hqr := List.mem_range'_1.mp hqf.1
  have hspec := windowEnd_spec l R hs hm hf hv p (by omega)
  have hplen : p < l.length := by omega
  have hqlen : q < l.length := by omega
  simp only [List.mem_cons, List.not_mem_nil, or_false] at hwq
  rcases hwq with hwq | hwq
  · rw [hwq]
    exact sorter_lt l R hs hm p hplen
  · rw [hwq]
    exact sorter_lt l R hs hm q hqlen

/-- Witness for C10 at the two-box input of the C1 witness. -/
theorem C10_output_words_in_range_witness :
    (wlistC.length ≠ 0 ∧ sorterOK wlistC widC ∧ (∀ b ∈ wlistC, boxValid b) ∧
      (∀ b ∈ wlistC, coordsFinite b) ∧ (∀ b ∈ wlistC, b.minx < fltMaxV)) ∧
    ((∀ p, p < wlistC.length → widC p < wlistC.length) ∧
     (∀ a, a < wlistC.length → ∃ p, p < wlistC.length ∧ widC p = a) ∧
     ∃ out, CompleteBoxPruning wlistC widC ⟨[], 0⟩ = some out ∧
       ∀ w ∈ out.data, w < wlistC.length) :=
  ⟨⟨by decide, by decide, by decide, by decide, by decide⟩,
    C10_output_words_in_range wlistC widC (by decide) (by decide) (by decide)
      (by decide) (by decide)⟩

/-- Claim C9: if the output `Container` starts with zero entries, then on
return its entries are exactly the words emitted during the prune, in
emission order (`refWords`), and the entry count is even.  The model's
`PairOutputBuffer` constructor (`mkPOB`) keeps a garbage prefix of
`count` words — `begin = entries + count` — which is empty exactly when the
container starts empty. -/
theorem C9_empty_container_exact (l : List AABB) (R : Nat → Nat)
    (c : Container) (hc : c.data = []) (hne : l.length ≠ 0) (hs : sorterOK l R)
    (hv : ∀ b ∈ l, boxValid b) (hf : ∀ b ∈ l, coordsFinite b)
    (hm : ∀ b ∈ l, b.minx < fltMaxV) :
    ∃ out, CompleteBoxPruning l R c = some out ∧
      out.data = refWords l R ∧ out.data.length % 2 = 0 := by
  obtain ⟨out, hout, hdata⟩ := CompleteBoxPruning_data l R c hne hs hm hf hv
  have h0 : (mkPOB c).contents = [] := by
    simp [mkPOB, hc]
  rw [h0, List.nil_append] at hdata
  exact ⟨out, hout, hdata, by rw [hdata]; exact refWords_length_even l R⟩

/-- Witness for C9 at the two-box input of the C1 witness, with an empty
container of nonzero capacity. -/
theorem C9_empty_container_exact_witness :
    ((⟨[], 7⟩ : Container).data = [] ∧ wlistC.length ≠ 0 ∧
      sorterOK wlistC widC ∧ (∀ b ∈ wlistC, boxValid b) ∧
      (∀ b ∈ wlistC, coordsFinite b) ∧ (∀ b ∈ wlistC, b.minx < fltMaxV)) ∧
    (∃ out, CompleteBoxPruning wlistC widC ⟨[], 7⟩ = some out ∧
      out.data = refWords wlistC widC ∧ out.data.length % 2 = 0) :=
  ⟨⟨rfl, by decide, by decide, by decide, by decide, by decide⟩,
    C9_empty_container_exact wlistC widC ⟨[], 7⟩ rfl (by decide) (by decide)
      (by decide) (by decide) (by decide)⟩
